import Mathlib

/-!
Rasterizer and ray tracer cores of Graphics_OpenGL.

Shallow embedding of `Rasterization/main.cpp` (`putPixel`, `drawLine`,
`circlePoints`, `drawCircle`) and of `Ray_Tracing/main.cpp`
(`Sphere::intersect`, `diffuse`, `phong`, `trace`).

Conventions of the embedding.

* A C `int` is an `Int` of the 32-bit range; every arithmetic result of the
  rasterizer is reduced to that range by `wrap` (two's complement).  The same
  routines over unbounded integers (`idealLine`, `idealCircle`) serve as the
  reference on inputs for which nothing overflows.
* A drawing routine is a `void` function whose only effect is the sequence of
  `putPixel` calls it makes.  `drawLine` and `drawCircle` return that sequence
  of argument pairs, in call order; `drawPixels` replays a sequence on a
  buffer with `putPixel`.
* `float` values of the ray tracer are elements of a linearly ordered field
  `K` with exact operations; the square root is a parameter `sqrt : K → K`.
  Taking `K = ℝ` and `sqrt = Real.sqrt` gives exact real arithmetic.  The
  namespace `RayTracer.IEEE` repeats `intersect` and `trace` with the IEEE 754
  infinities and NaN added.
-/

namespace Raster

/-- The image buffer `g_image`: row-major luminance values. -/
abbrev Image := List ℚ

/-- The function `putPixel(x, y)` on a buffer of width `W` and height `H`:
coordinates outside the buffer are dropped, otherwise cell `y * W + x` is set
to `1.0f`. -/
def putPixel (W H : Int) (img : Image) (x y : Int) : Image :=
  if x ≥ W ∨ x < 0 ∨ y ≥ H ∨ y < 0 then img
  else img.set (y * W + x).toNat 1

/-- Replays a sequence of `putPixel` calls on a buffer. -/
def drawPixels (W H : Int) (img : Image) (ps : List (Int × Int)) : Image :=
  ps.foldl (fun b p => putPixel W H b p.1 p.2) img

/-- The values of a 32-bit `int`. -/
def isInt (z : Int) : Prop := -2147483648 ≤ z ∧ z < 2147483648

instance (z : Int) : Decidable (isInt z) :=
  inferInstanceAs (Decidable (-2147483648 ≤ z ∧ z < 2147483648))

/-- Reduction of an integer result to the 32-bit two's complement `int`
range. -/
def wrap (z : Int) : Int := (z + 2147483648) % 4294967296 - 2147483648

/-- The function `abs` on `int`. -/
def iabs (z : Int) : Int := wrap |z|

/-- Iteration bound of the loops below: a loop whose counter moves one step at
a time towards its target inside the `int` range stops within `2^32`
iterations. -/
def loopFuel : Nat := 4294967296

/-- The loop `while (x1 < x2)` of the shallow branch of `drawLine`
(lines 185-198): the calls `putPixel(x1, y1)` made by the loop body. -/
def lineLoopXInc : Nat → Int → Int → Int → Int → Int → Int → List (Int × Int)
  | 0, _, _, _, _, _, _ => []
  | fuel + 1, x1, y1, x2, D, inc0, inc1 =>
    if x1 < x2 then
      if D ≤ 0 then
        (wrap (x1 + 1), y1) ::
          lineLoopXInc fuel (wrap (x1 + 1)) y1 x2 (wrap (D + inc0)) inc0 inc1
      else
        (wrap (x1 + 1), wrap (y1 + 1)) ::
          lineLoopXInc fuel (wrap (x1 + 1)) (wrap (y1 + 1)) x2 (wrap (D + inc1)) inc0 inc1
    else []

/-- The loop `while (x2 < x1)` of the shallow branch of `drawLine`
(lines 202-215, "drawing in reverse"). -/
def lineLoopXDec : Nat → Int → Int → Int → Int → Int → Int → List (Int × Int)
  | 0, _, _, _, _, _, _ => []
  | fuel + 1, x1, y1, x2, D, inc0, inc1 =>
    if x2 < x1 then
      if D ≤ 0 then
        (wrap (x1 - 1), y1) ::
          lineLoopXDec fuel (wrap (x1 - 1)) y1 x2 (wrap (D + inc0)) inc0 inc1
      else
        (wrap (x1 - 1), wrap (y1 + 1)) ::
          lineLoopXDec fuel (wrap (x1 - 1)) (wrap (y1 + 1)) x2 (wrap (D + inc1)) inc0 inc1
    else []

/-- The loop `while (y1 < y2)` of the steep branch of `drawLine`
(lines 241-254). -/
def lineLoopYInc : Nat → Int → Int → Int → Int → Int → Int → List (Int × Int)
  | 0, _, _, _, _, _, _ => []
  | fuel + 1, x1, y1, y2, D, inc0, inc1 =>
    if y1 < y2 then
      if D ≤ 0 then
        (x1, wrap (y1 + 1)) ::
          lineLoopYInc fuel x1 (wrap (y1 + 1)) y2 (wrap (D + inc0)) inc0 inc1
      else
        (wrap (x1 + 1), wrap (y1 + 1)) ::
          lineLoopYInc fuel (wrap (x1 + 1)) (wrap (y1 + 1)) y2 (wrap (D + inc1)) inc0 inc1
    else []

/-- The second loop of the steep branch of `drawLine` (lines 258-271): its
guard is again `y1 < y2` while its body decrements `y1`.  `drawLine` reaches
it only with `y1 ≥ y2`, where the guard fails on entry whatever the fuel
(`lineLoopYDec_of_not_lt`). -/
def lineLoopYDec : Nat → Int → Int → Int → Int → Int → Int → List (Int × Int)
  | 0, _, _, _, _, _, _ => []
  | fuel + 1, x1, y1, y2, D, inc0, inc1 =>
    if y1 < y2 then
      if D ≤ 0 then
        (x1, wrap (y1 - 1)) ::
          lineLoopYDec fuel x1 (wrap (y1 - 1)) y2 (wrap (D + inc0)) inc0 inc1
      else
        (wrap (x1 + 1), wrap (y1 - 1)) ::
          lineLoopYDec fuel (wrap (x1 + 1)) (wrap (y1 - 1)) y2 (wrap (D + inc1)) inc0 inc1
    else []

/-- The function `drawLine(x1, y1, x2, y2)`: the sequence of `putPixel` calls
it makes, every `int` result reduced by `wrap`. -/
def drawLine (x1 y1 x2 y2 : Int) : List (Int × Int) :=
  if iabs (wrap (y2 - y1)) < iabs (wrap (x2 - x1)) then
    -- slope is less than 1
    let (x1, y1, x2, y2) := if y1 > y2 then (x2, y2, x1, y1) else (x1, y1, x2, y2)
    let dx := iabs (wrap (x2 - x1))
    let dy := iabs (wrap (y2 - y1))
    let D := wrap (wrap (2 * dy) - dx)
    let inc0 := wrap (2 * dy)
    let inc1 := wrap (2 * wrap (dy - dx))
    (x1, y1) ::
      (if x1 < x2 then lineLoopXInc loopFuel x1 y1 x2 D inc0 inc1
       else lineLoopXDec loopFuel x1 y1 x2 D inc0 inc1)
  else
    -- slope is more than 1
    let (x1, y1, x2, y2) := if x1 > x2 then (x2, y2, x1, y1) else (x1, y1, x2, y2)
    let dx := iabs (wrap (x2 - x1))
    let dy := iabs (wrap (y2 - y1))
    let D := wrap (wrap (2 * dx) - dy)
    let inc0 := wrap (2 * dx)
    let inc1 := wrap (2 * wrap (dx - dy))
    (x1, y1) ::
      (if y1 < y2 then lineLoopYInc loopFuel x1 y1 y2 D inc0 inc1
       else lineLoopYDec loopFuel x1 y1 y2 D inc0 inc1)

/-- The function `drawLine` acting on a buffer. -/
def drawLineOn (W H : Int) (img : Image) (x1 y1 x2 y2 : Int) : Image :=
  drawPixels W H img (drawLine x1 y1 x2 y2)

/-- The loop `lineLoopXInc` over unbounded integers. -/
def idealLoopXInc (x1 y1 x2 D inc0 inc1 : Int) : List (Int × Int) :=
  if x1 < x2 then
    if D ≤ 0 then
      (x1 + 1, y1) :: idealLoopXInc (x1 + 1) y1 x2 (D + inc0) inc0 inc1
    else
      (x1 + 1, y1 + 1) :: idealLoopXInc (x1 + 1) (y1 + 1) x2 (D + inc1) inc0 inc1
  else []
termination_by (x2 - x1).toNat
decreasing_by all_goals omega

/-- The loop `lineLoopXDec` over unbounded integers. -/
def idealLoopXDec (x1 y1 x2 D inc0 inc1 : Int) : List (Int × Int) :=
  if x2 < x1 then
    if D ≤ 0 then
      (x1 - 1, y1) :: idealLoopXDec (x1 - 1) y1 x2 (D + inc0) inc0 inc1
    else
      (x1 - 1, y1 + 1) :: idealLoopXDec (x1 - 1) (y1 + 1) x2 (D + inc1) inc0 inc1
  else []
termination_by (x1 - x2).toNat
decreasing_by all_goals omega

/-- The loop `lineLoopYInc` over unbounded integers. -/
def idealLoopYInc (x1 y1 y2 D inc0 inc1 : Int) : List (Int × Int) :=
  if y1 < y2 then
    if D ≤ 0 then
      (x1, y1 + 1) :: idealLoopYInc x1 (y1 + 1) y2 (D + inc0) inc0 inc1
    else
      (x1 + 1, y1 + 1) :: idealLoopYInc (x1 + 1) (y1 + 1) y2 (D + inc1) inc0 inc1
  else []
termination_by (y2 - y1).toNat
decreasing_by all_goals omega

/-- The loop `lineLoopYDec` over unbounded integers. -/
def idealLoopYDec : Nat → Int → Int → Int → Int → Int → Int → List (Int × Int)
  | 0, _, _, _, _, _, _ => []
  | fuel + 1, x1, y1, y2, D, inc0, inc1 =>
    if y1 < y2 then
      if D ≤ 0 then
        (x1, y1 - 1) :: idealLoopYDec fuel x1 (y1 - 1) y2 (D + inc0) inc0 inc1
      else
        (x1 + 1, y1 - 1) :: idealLoopYDec fuel (x1 + 1) (y1 - 1) y2 (D + inc1) inc0 inc1
    else []

/-- The function `drawLine` over unbounded integers. -/
def idealLine (x1 y1 x2 y2 : Int) : List (Int × Int) :=
  if |y2 - y1| < |x2 - x1| then
    -- slope is less than 1
    let (x1, y1, x2, y2) := if y1 > y2 then (x2, y2, x1, y1) else (x1, y1, x2, y2)
    let dx := |x2 - x1|
    let dy := |y2 - y1|
    let D := 2 * dy - dx
    let inc0 := 2 * dy
    let inc1 := 2 * (dy - dx)
    (x1, y1) ::
      (if x1 < x2 then idealLoopXInc x1 y1 x2 D inc0 inc1
       else idealLoopXDec x1 y1 x2 D inc0 inc1)
  else
    -- slope is more than 1
    let (x1, y1, x2, y2) := if x1 > x2 then (x2, y2, x1, y1) else (x1, y1, x2, y2)
    let dx := |x2 - x1|
    let dy := |y2 - y1|
    let D := 2 * dx - dy
    let inc0 := 2 * dx
    let inc1 := 2 * (dx - dy)
    (x1, y1) ::
      (if y1 < y2 then idealLoopYInc x1 y1 y2 D inc0 inc1
       else idealLoopYDec (y1 - y2).toNat x1 y1 y2 D inc0 inc1)

end Raster

/-! ## Ray tracer -/

namespace RayTracer

/-- Eigen's `Vector3f`, over an exact field `K`. -/
@[ext]
structure Vec3 (K : Type) where
  x : K
  y : K
  z : K

namespace Vec3

variable {K : Type} [LinearOrderedField K]

/-- The constant `Vector3f::Zero()`. -/
def zero : Vec3 K := ⟨0, 0, 0⟩

/-- The constant `Vector3f::Ones()`. -/
def ones : Vec3 K := ⟨1, 1, 1⟩

/-- Componentwise `a + b`. -/
def add (a b : Vec3 K) : Vec3 K := ⟨a.x + b.x, a.y + b.y, a.z + b.z⟩

/-- Componentwise `a - b`. -/
def sub (a b : Vec3 K) : Vec3 K := ⟨a.x - b.x, a.y - b.y, a.z - b.z⟩

/-- Product `k * v` of a scalar and a vector. -/
def smul (k : K) (v : Vec3 K) : Vec3 K := ⟨k * v.x, k * v.y, k * v.z⟩

/-- Quotient `v / k` of a vector by a scalar. -/
def sdiv (v : Vec3 K) (k : K) : Vec3 K := ⟨v.x / k, v.y / k, v.z / k⟩

/-- The product `a.dot(b)`. -/
def dot (a b : Vec3 K) : K := a.x * b.x + a.y * b.y + a.z * b.z

/-- Eigen's `normalize()`: the vector divided by its norm `sqrt(v.dot(v))`; a
vector of squared norm zero is left as it is. -/
def normalize (sqrt : K → K) (v : Vec3 K) : Vec3 K :=
  if v.dot v > 0 then v.sdiv (sqrt (v.dot v)) else v

/-- Sum of a list of vectors (used to state the accumulated colour). -/
def sum : List (Vec3 K) → Vec3 K
  | [] => zero
  | v :: vs => add v (sum vs)

end Vec3

/-- The class `Sphere`. -/
structure Sphere (K : Type) where
  center : Vec3 K
  radius : K
  surfaceColor : Vec3 K

section

variable {K : Type} [LinearOrderedField K]

/-- The global `bgcolor`. -/
def bgcolor : Vec3 K := ⟨1, 1, 1⟩

/-- The global `lightPositions`. -/
def lightPositions : List (Vec3 K) :=
  [⟨0, 60, 60⟩, ⟨-60, 60, 60⟩, ⟨60, 60, 60⟩]

/-- The method `Sphere::intersect`: `none` for `return false`, `some (t0, t1)`
for `return true` with the two values written through the references. -/
def intersect (sqrt : K → K) (s : Sphere K) (rayOrigin rayDirection : Vec3 K) :
    Option (K × K) :=
  let l := Vec3.sub s.center rayOrigin
  let tca := Vec3.dot l rayDirection
  if tca < 0 then none
  else
    let d2 := Vec3.dot l l - tca * tca
    if d2 > s.radius * s.radius then none
    else
      let thc := sqrt (s.radius * s.radius - d2)
      some (tca - thc, tca + thc)

/-- The function `diffuse`. -/
def diffuse (L N diffuseColor : Vec3 K) (kd : K) : Vec3 K :=
  if Vec3.dot L N > 0 then Vec3.smul (333 / 1000 * kd * Vec3.dot L N) diffuseColor
  else Vec3.zero

/-- The function `phong`.  Its shininess `alpha` is a `float` in the source;
the one call passes `100`, and `pow` with an integral exponent is a repeated
product, so `alpha` is a natural number here. -/
def phong (L N V diffuseColor specularColor : Vec3 K) (kd ks : K) (alpha : Nat) : Vec3 K :=
  let Rm := Vec3.sub (Vec3.smul (2 * Vec3.dot L N) N) L
  Vec3.add (diffuse L N diffuseColor kd)
    (Vec3.smul (33 / 100) (Vec3.smul (ks * Vec3.dot Rm V ^ alpha) specularColor))

/-- The shadow loop of `trace` (lines 122-132): whether some sphere of the
scene reports a hit for the ray from `P` in direction `lightDir`. -/
def shadowed (sqrt : K → K) (spheres : List (Sphere K)) (P lightDir : Vec3 K) : Bool :=
  spheres.any (fun s => (intersect sqrt s P lightDir).isSome)

/-- The direction `lightDir` of `trace` (lines 120-121). -/
def lightDirection (sqrt : K → K) (light P : Vec3 K) : Vec3 K :=
  Vec3.normalize sqrt (Vec3.sub light P)

/-- The contribution `trace` adds for one light (line 139). -/
def lightTerm (sqrt : K → K) (lights : List (Vec3 K)) (s : Sphere K)
    (rayDirection calOrigin light : Vec3 K) : Vec3 K :=
  phong (lightDirection sqrt light calOrigin)
    (Vec3.sdiv (Vec3.sub calOrigin s.center) s.radius)
    (Vec3.normalize sqrt rayDirection) s.surfaceColor Vec3.ones 1 (lights.length : K) 100

/-- The loop over the lights of `trace` (lines 118-142), started from the black
`pixelColor` of line 105; `lights` is the global `lightPositions`. -/
def shade (sqrt : K → K) (lights : List (Vec3 K)) (spheres : List (Sphere K)) (s : Sphere K)
    (rayDirection calOrigin : Vec3 K) : Vec3 K :=
  lights.foldl
    (fun pixelColor light =>
      if shadowed sqrt spheres calOrigin (lightDirection sqrt light calOrigin) then pixelColor
      else Vec3.add pixelColor (lightTerm sqrt lights s rayDirection calOrigin light))
    Vec3.zero

/-- The point `calOrigin` of `trace` (lines 109-116). -/
def calOrigin (rayOrigin rayDirection : Vec3 K) (t0 t1 : K) : Vec3 K :=
  if t0 > 0 then Vec3.add rayOrigin (Vec3.smul t0 rayDirection)
  else Vec3.add rayOrigin (Vec3.smul t1 rayDirection)

/-- The test `t0 < front`, where `front` starts as `INFINITY` (`none`). -/
def beforeFront (t0 : K) : Option K → Bool
  | none => true
  | some front => decide (t0 < front)

/-- The loop over the spheres of `trace` (lines 99-145) on the spheres still to
visit, carrying `pixelColor` and `front`; `spheres` is the whole scene. -/
def traceLoop (sqrt : K → K) (lights : List (Vec3 K)) (spheres : List (Sphere K))
    (rayOrigin rayDirection : Vec3 K) :
    List (Sphere K) → Vec3 K × Option K → Vec3 K × Option K
  | [], st => st
  | s :: rest, (pixelColor, front) =>
    match intersect sqrt s rayOrigin rayDirection with
    | some (t0, t1) =>
      if beforeFront t0 front then
        traceLoop sqrt lights spheres rayOrigin rayDirection rest
          (shade sqrt lights spheres s rayDirection (calOrigin rayOrigin rayDirection t0 t1),
            some t0)
      else traceLoop sqrt lights spheres rayOrigin rayDirection rest (pixelColor, front)
    | none => traceLoop sqrt lights spheres rayOrigin rayDirection rest (pixelColor, front)

/-- The function `trace`, with the global `lightPositions` as the parameter
`lights`. -/
def trace (sqrt : K → K) (lights : List (Vec3 K)) (rayOrigin rayDirection : Vec3 K)
    (spheres : List (Sphere K)) : Vec3 K :=
  (traceLoop sqrt lights spheres rayOrigin rayDirection spheres (bgcolor, none)).1

/-- A test sphere: red, of radius 1, centred at `(0, 0, -2)`. -/
def twinRed : Sphere K := ⟨⟨0, 0, -2⟩, 1, ⟨1, 0, 0⟩⟩

/-- A test sphere: blue, with the centre and radius of `twinRed`. -/
def twinBlue : Sphere K := ⟨⟨0, 0, -2⟩, 1, ⟨0, 0, 1⟩⟩

end

end RayTracer

/-! ## Ray tracer: `float` with its special values

The definitions of `RayTracer` take `float` as an exact ordered field and so
have neither infinities nor NaN.  The definitions below repeat `intersect` and
`trace` over `XFloat`, which adds the IEEE 754 special values: a finite result
beyond the largest finite `float` overflows to an infinity, `inf - inf` and
`0 * inf` are NaN, NaN propagates, and every comparison with NaN is false.
Finite results are kept exact: rounding to 24 significant bits and the sign
of zero are not modelled. -/

namespace RayTracer

/-- A `float`: a finite value, an infinity, or NaN. -/
inductive XFloat (K : Type) where
  | fin (v : K)
  | pinf
  | ninf
  | nan

namespace IEEE

section

variable {K : Type} [LinearOrderedField K]

/-- The largest finite `float`, `(2 - 2^-23) * 2^127`. -/
def fltMax : K := 340282346638528859811704183484516925440

/-- The `float` holding an exact result: beyond `fltMax` it is an infinity. -/
def ofExact (v : K) : XFloat K :=
  if v > fltMax then XFloat.pinf else if v < -fltMax then XFloat.ninf else XFloat.fin v

/-- Unary minus on `float`. -/
def neg : XFloat K → XFloat K
  | XFloat.fin v => XFloat.fin (-v)
  | XFloat.pinf => XFloat.ninf
  | XFloat.ninf => XFloat.pinf
  | XFloat.nan => XFloat.nan

/-- The sum `a + b` on `float`. -/
def add : XFloat K → XFloat K → XFloat K
  | XFloat.nan, _ => XFloat.nan
  | _, XFloat.nan => XFloat.nan
  | XFloat.pinf, XFloat.ninf => XFloat.nan
  | XFloat.ninf, XFloat.pinf => XFloat.nan
  | XFloat.pinf, _ => XFloat.pinf
  | _, XFloat.pinf => XFloat.pinf
  | XFloat.ninf, _ => XFloat.ninf
  | _, XFloat.ninf => XFloat.ninf
  | XFloat.fin a, XFloat.fin b => ofExact (a + b)

/-- The difference `a - b` on `float`. -/
def sub (a b : XFloat K) : XFloat K := add a (neg b)

/-- The product of `+inf` and a `float`. -/
def mulInf : XFloat K → XFloat K
  | XFloat.nan => XFloat.nan
  | XFloat.pinf => XFloat.pinf
  | XFloat.ninf => XFloat.ninf
  | XFloat.fin v => if v > 0 then XFloat.pinf else if v < 0 then XFloat.ninf else XFloat.nan

/-- The product `a * b` on `float`. -/
def mul : XFloat K → XFloat K → XFloat K
  | XFloat.nan, _ => XFloat.nan
  | _, XFloat.nan => XFloat.nan
  | XFloat.pinf, b => mulInf b
  | XFloat.ninf, b => neg (mulInf b)
  | a, XFloat.pinf => mulInf a
  | a, XFloat.ninf => neg (mulInf a)
  | XFloat.fin a, XFloat.fin b => ofExact (a * b)

/-- The quotient `a / b` on `float`; a non-zero finite value over zero is the
infinity of the sign of the dividend. -/
def div : XFloat K → XFloat K → XFloat K
  | XFloat.nan, _ => XFloat.nan
  | _, XFloat.nan => XFloat.nan
  | XFloat.fin _, XFloat.pinf => XFloat.fin 0
  | XFloat.fin _, XFloat.ninf => XFloat.fin 0
  | XFloat.fin a, XFloat.fin b =>
    if b = 0 then
      if a > 0 then XFloat.pinf else if a < 0 then XFloat.ninf else XFloat.nan
    else ofExact (a / b)
  | XFloat.pinf, XFloat.fin b => if b < 0 then XFloat.ninf else XFloat.pinf
  | XFloat.ninf, XFloat.fin b => if b < 0 then XFloat.pinf else XFloat.ninf
  | _, _ => XFloat.nan

/-- The function `sqrt` on `float`, from the exact square root `sqrt`. -/
def fsqrt (sqrt : K → K) : XFloat K → XFloat K
  | XFloat.nan => XFloat.nan
  | XFloat.pinf => XFloat.pinf
  | XFloat.ninf => XFloat.nan
  | XFloat.fin v => if v < 0 then XFloat.nan else XFloat.fin (sqrt v)

/-- The function `pow(x, alpha)` for an integral `alpha`. -/
def fpow : XFloat K → Nat → XFloat K
  | _, 0 => XFloat.fin 1
  | XFloat.nan, _ => XFloat.nan
  | XFloat.pinf, _ => XFloat.pinf
  | XFloat.ninf, n => if n % 2 = 0 then XFloat.pinf else XFloat.ninf
  | XFloat.fin v, n => ofExact (v ^ n)

/-- The comparison `a < b` on `float`: false as soon as one side is NaN. -/
def lt : XFloat K → XFloat K → Bool
  | XFloat.nan, _ => false
  | _, XFloat.nan => false
  | XFloat.fin a, XFloat.fin b => decide (a < b)
  | XFloat.ninf, XFloat.ninf => false
  | XFloat.ninf, _ => true
  | XFloat.pinf, _ => false
  | XFloat.fin _, XFloat.pinf => true
  | XFloat.fin _, XFloat.ninf => false

/-- Componentwise `a + b` on `Vector3f`. -/
def vadd (a b : Vec3 (XFloat K)) : Vec3 (XFloat K) := ⟨add a.x b.x, add a.y b.y, add a.z b.z⟩

/-- Componentwise `a - b` on `Vector3f`. -/
def vsub (a b : Vec3 (XFloat K)) : Vec3 (XFloat K) := ⟨sub a.x b.x, sub a.y b.y, sub a.z b.z⟩

/-- Product `k * v` of a scalar and a vector. -/
def smul (k : XFloat K) (v : Vec3 (XFloat K)) : Vec3 (XFloat K) :=
  ⟨mul k v.x, mul k v.y, mul k v.z⟩

/-- Quotient `v / k` of a vector by a scalar. -/
def sdiv (v : Vec3 (XFloat K)) (k : XFloat K) : Vec3 (XFloat K) :=
  ⟨div v.x k, div v.y k, div v.z k⟩

/-- The product `a.dot(b)`. -/
def dot (a b : Vec3 (XFloat K)) : XFloat K :=
  add (add (mul a.x b.x) (mul a.y b.y)) (mul a.z b.z)

/-- Eigen's `normalize()`. -/
def normalize (sqrt : K → K) (v : Vec3 (XFloat K)) : Vec3 (XFloat K) :=
  if lt (XFloat.fin 0) (dot v v) then sdiv v (fsqrt sqrt (dot v v)) else v

/-- The global `bgcolor`. -/
def bgcolor : Vec3 (XFloat K) := ⟨XFloat.fin 1, XFloat.fin 1, XFloat.fin 1⟩

/-- The global `lightPositions`. -/
def lightPositions : List (Vec3 (XFloat K)) :=
  [⟨XFloat.fin 0, XFloat.fin 60, XFloat.fin 60⟩,
   ⟨XFloat.fin (-60), XFloat.fin 60, XFloat.fin 60⟩,
   ⟨XFloat.fin 60, XFloat.fin 60, XFloat.fin 60⟩]

/-- The method `Sphere::intersect`. -/
def intersect (sqrt : K → K) (s : Sphere (XFloat K))
    (rayOrigin rayDirection : Vec3 (XFloat K)) : Option (XFloat K × XFloat K) :=
  let l := vsub s.center rayOrigin
  let tca := dot l rayDirection
  if lt tca (XFloat.fin 0) then none
  else
    let d2 := sub (dot l l) (mul tca tca)
    if lt (mul s.radius s.radius) d2 then none
    else
      let thc := fsqrt sqrt (sub (mul s.radius s.radius) d2)
      some (sub tca thc, add tca thc)

/-- The function `diffuse`. -/
def diffuse (L N diffuseColor : Vec3 (XFloat K)) (kd : XFloat K) : Vec3 (XFloat K) :=
  if lt (XFloat.fin 0) (dot L N) then
    smul (mul (mul (XFloat.fin (333 / 1000)) kd) (dot L N)) diffuseColor
  else ⟨XFloat.fin 0, XFloat.fin 0, XFloat.fin 0⟩

/-- The function `phong`. -/
def phong (L N V diffuseColor specularColor : Vec3 (XFloat K)) (kd ks : XFloat K)
    (alpha : Nat) : Vec3 (XFloat K) :=
  let Rm := vsub (smul (mul (XFloat.fin 2) (dot L N)) N) L
  vadd (diffuse L N diffuseColor kd)
    (smul (XFloat.fin (33 / 100)) (smul (mul ks (fpow (dot Rm V) alpha)) specularColor))

/-- The shadow loop of `trace` (lines 122-132). -/
def shadowed (sqrt : K → K) (spheres : List (Sphere (XFloat K)))
    (P lightDir : Vec3 (XFloat K)) : Bool :=
  spheres.any (fun s => (intersect sqrt s P lightDir).isSome)

/-- The loop over the lights of `trace` (lines 118-142). -/
def shade (sqrt : K → K) (lights : List (Vec3 (XFloat K))) (spheres : List (Sphere (XFloat K)))
    (s : Sphere (XFloat K)) (rayDirection calOrigin : Vec3 (XFloat K)) : Vec3 (XFloat K) :=
  lights.foldl
    (fun pixelColor light =>
      if shadowed sqrt spheres calOrigin (normalize sqrt (vsub light calOrigin)) then pixelColor
      else
        vadd pixelColor
          (phong (normalize sqrt (vsub light calOrigin))
            (sdiv (vsub calOrigin s.center) s.radius) (normalize sqrt rayDirection)
            s.surfaceColor ⟨XFloat.fin 1, XFloat.fin 1, XFloat.fin 1⟩ (XFloat.fin 1)
            (XFloat.fin (lights.length : K)) 100))
    ⟨XFloat.fin 0, XFloat.fin 0, XFloat.fin 0⟩

/-- The point `calOrigin` of `trace` (lines 109-116). -/
def calOrigin (rayOrigin rayDirection : Vec3 (XFloat K)) (t0 t1 : XFloat K) :
    Vec3 (XFloat K) :=
  if lt (XFloat.fin 0) t0 then vadd rayOrigin (smul t0 rayDirection)
  else vadd rayOrigin (smul t1 rayDirection)

/-- The loop over the spheres of `trace` (lines 99-145), carrying `pixelColor`
and `front`. -/
def traceLoop (sqrt : K → K) (lights : List (Vec3 (XFloat K)))
    (spheres : List (Sphere (XFloat K))) (rayOrigin rayDirection : Vec3 (XFloat K)) :
    List (Sphere (XFloat K)) → Vec3 (XFloat K) × XFloat K → Vec3 (XFloat K) × XFloat K
  | [], st => st
  | s :: rest, (pixelColor, front) =>
    match intersect sqrt s rayOrigin rayDirection with
    | some (t0, t1) =>
      if lt t0 front then
        traceLoop sqrt lights spheres rayOrigin rayDirection rest
          (shade sqrt lights spheres s rayDirection (calOrigin rayOrigin rayDirection t0 t1), t0)
      else traceLoop sqrt lights spheres rayOrigin rayDirection rest (pixelColor, front)
    | none => traceLoop sqrt lights spheres rayOrigin rayDirection rest (pixelColor, front)

/-- The function `trace`; `front` starts as `INFINITY`. -/
def trace (sqrt : K → K) (lights : List (Vec3 (XFloat K)))
    (rayOrigin rayDirection : Vec3 (XFloat K)) (spheres : List (Sphere (XFloat K))) :
    Vec3 (XFloat K) :=
  (traceLoop sqrt lights spheres rayOrigin rayDirection spheres (bgcolor, XFloat.pinf)).1

end

end IEEE

end RayTracer

/-! ## Theorems: line rasterizer -/

namespace Raster

theorem range_toNat_succ (a b : Int) (h : a < b) (f : Int → Int) :
    (List.range (b - a).toNat).map (fun k : Nat => f (a + (k : Int)))
      = f a :: (List.range (b - (a + 1)).toNat).map (fun k : Nat => f (a + 1 + (k : Int))) := by
  have hs : (b - a).toNat = (b - (a + 1)).toNat + 1 := by omega
  rw [hs, List.range_succ_eq_map]
  simp only [List.map_cons, List.map_map, Function.comp_def, Nat.cast_zero, add_zero,
    Nat.cast_succ, List.cons.injEq, true_and]
  apply List.map_congr_left
  intro k _
  congr 1
  ring

/-- The driving coordinates produced by the increasing loop are
`x1 + 1, x1 + 2, ..., x2`. -/
theorem idealLoopXInc_fst (x1 y1 x2 D i0 i1 : Int) :
    (idealLoopXInc x1 y1 x2 D i0 i1).map Prod.fst
      = (List.range (x2 - x1).toNat).map (fun k : Nat => x1 + 1 + (k : Int)) := by
  induction x1, y1, x2, D, i0, i1 using idealLoopXInc.induct with
  | case1 x1 y1 x2 D i0 i1 h hD ih =>
    rw [idealLoopXInc, if_pos h, if_pos hD, List.map_cons, ih]
    have := range_toNat_succ x1 x2 h (fun t => t + 1)
    simp only [add_right_comm _ _ (1:Int)] at this ⊢
    rw [this]
  | case2 x1 y1 x2 D i0 i1 h hD ih =>
    rw [idealLoopXInc, if_pos h, if_neg hD, List.map_cons, ih]
    have := range_toNat_succ x1 x2 h (fun t => t + 1)
    simp only [add_right_comm _ _ (1:Int)] at this ⊢
    rw [this]
  | case3 x1 y1 x2 D i0 i1 h =>
    rw [idealLoopXInc, if_neg h]
    have : (x2 - x1).toNat = 0 := by omega
    simp [this]

/-- Invariant of the midpoint decision variable: with `dy ≤ dx` the minor
coordinate never leaves `[y1, y2]` and the loop ends exactly at `(x2, y2)`. -/
theorem idealLoopXInc_inv (dx dy x2 y2 : Int) (hdx : 0 < dx) (hdy0 : 0 ≤ dy) (hdy : dy ≤ dx)
    (x1 y1 D i0 i1 : Int) :
    i0 = 2 * dy → i1 = 2 * (dy - dx) → x1 ≤ x2 →
    D = 2 * dy - dx + (2 * (y2 - y1) * dx - 2 * (x2 - x1) * dy) →
    -dx < 2 * (y2 - y1) * dx - 2 * (x2 - x1) * dy →
    2 * (y2 - y1) * dx - 2 * (x2 - x1) * dy ≤ dx →
    (∀ p ∈ (x1, y1) :: idealLoopXInc x1 y1 x2 D i0 i1, y1 ≤ p.2 ∧ p.2 ≤ y2) ∧
      ((x1, y1) :: idealLoopXInc x1 y1 x2 D i0 i1).getLast? = some (x2, y2) := by
  induction x1, y1, x2, D, i0, i1 using idealLoopXInc.induct with
  | case1 x1 y1 x2 D i0 i1 h hD ih =>
    intro h0 h1 hx hDe hlo hhi
    rw [idealLoopXInc, if_pos h, if_pos hD]
    subst h0 h1
    obtain ⟨ihb, ihl⟩ := ih rfl rfl (by omega) (by rw [hDe]; ring) (by nlinarith) (by nlinarith)
    refine ⟨?_, by rw [List.getLast?_cons_cons]; exact ihl⟩
    intro p hp
    rcases List.mem_cons.1 hp with rfl | hp
    · exact ⟨le_refl _, (ihb _ (List.mem_cons_self _ _)).2⟩
    · exact ihb p hp
  | case2 x1 y1 x2 D i0 i1 h hD ih =>
    intro h0 h1 hx hDe hlo hhi
    rw [idealLoopXInc, if_pos h, if_neg hD]
    subst h0 h1
    obtain ⟨ihb, ihl⟩ := ih rfl rfl (by omega) (by rw [hDe]; ring) (by nlinarith) (by nlinarith)
    refine ⟨?_, by rw [List.getLast?_cons_cons]; exact ihl⟩
    intro p hp
    rcases List.mem_cons.1 hp with rfl | hp
    · have := (ihb _ (List.mem_cons_self _ _)).2
      exact ⟨le_refl _, by simp only at this ⊢; omega⟩
    · have := ihb p hp
      exact ⟨by omega, this.2⟩
  | case3 x1 y1 x2 D i0 i1 h =>
    intro h0 h1 hx hDe hlo hhi
    rw [idealLoopXInc, if_neg h]
    have hxe : x1 = x2 := by omega
    subst hxe
    have hy : y1 = y2 := by
      rcases lt_trichotomy y1 y2 with hlt | heq | hgt
      · exfalso
        have : dx ≤ (y2 - y1) * dx := by nlinarith
        nlinarith
      · exact heq
      · exfalso
        have : (y2 - y1) * dx ≤ -dx := by nlinarith
        nlinarith
    subst hy
    simp

/-- The decreasing loop is the increasing loop mirrored in `x`. -/
theorem idealLoopXDec_eq (x1 y1 x2 D i0 i1 : Int) :
    idealLoopXDec x1 y1 x2 D i0 i1
      = (idealLoopXInc (-x1) y1 (-x2) D i0 i1).map (fun p => (-p.1, p.2)) := by
  induction x1, y1, x2, D, i0, i1 using idealLoopXDec.induct with
  | case1 x1 y1 x2 D i0 i1 h hD ih =>
    rw [idealLoopXDec, if_pos h, if_pos hD, idealLoopXInc, if_pos (by omega), if_pos hD, ih]
    simp only [List.map_cons, List.cons.injEq, Prod.mk.injEq, and_true]
    refine ⟨by ring, ?_⟩
    rw [show -(x1 - 1) = -x1 + 1 by ring]
  | case2 x1 y1 x2 D i0 i1 h hD ih =>
    rw [idealLoopXDec, if_pos h, if_neg hD, idealLoopXInc, if_pos (by omega), if_neg hD, ih]
    simp only [List.map_cons, List.cons.injEq, Prod.mk.injEq, and_true]
    refine ⟨by ring, ?_⟩
    rw [show -(x1 - 1) = -x1 + 1 by ring]
  | case3 x1 y1 x2 D i0 i1 h =>
    rw [idealLoopXDec, if_neg h, idealLoopXInc, if_neg (by omega)]
    rfl

/-- The steep increasing loop is the shallow increasing loop with the axes
exchanged. -/
theorem idealLoopYInc_eq (x1 y1 y2 D i0 i1 : Int) :
    idealLoopYInc x1 y1 y2 D i0 i1
      = (idealLoopXInc y1 x1 y2 D i0 i1).map Prod.swap := by
  induction x1, y1, y2, D, i0, i1 using idealLoopYInc.induct with
  | case1 x1 y1 y2 D i0 i1 h hD ih =>
    rw [idealLoopYInc, if_pos h, if_pos hD, idealLoopXInc, if_pos h, if_pos hD, ih]
    rfl
  | case2 x1 y1 y2 D i0 i1 h hD ih =>
    rw [idealLoopYInc, if_pos h, if_neg hD, idealLoopXInc, if_pos h, if_neg hD, ih]
    rfl
  | case3 x1 y1 y2 D i0 i1 h =>
    rw [idealLoopYInc, if_neg h, idealLoopXInc, if_neg h]
    rfl

/-- The second steep loop makes no call when entered with `y1 ≥ y2`, for
every fuel. -/
theorem idealLoopYDec_of_not_lt (fuel : Nat) (x1 y1 y2 D i0 i1 : Int) (h : ¬ y1 < y2) :
    idealLoopYDec fuel x1 y1 y2 D i0 i1 = [] := by
  cases fuel with
  | zero => rfl
  | succ n => simp [idealLoopYDec, h]

theorem idealLine_shallow_inc (x1 y1 x2 y2 : Int) (h : |y2 - y1| < |x2 - x1|)
    (hy : y1 ≤ y2) (hx : x1 < x2) :
    idealLine x1 y1 x2 y2 = (x1, y1) :: idealLoopXInc x1 y1 x2
      (2 * (y2 - y1) - (x2 - x1)) (2 * (y2 - y1)) (2 * ((y2 - y1) - (x2 - x1))) := by
  unfold idealLine
  rw [if_pos h]
  simp only [gt_iff_lt, not_lt.2 hy, if_false, hx, if_true]
  rw [abs_of_nonneg (by omega : 0 ≤ y2 - y1), abs_of_pos (by omega : 0 < x2 - x1)]

theorem idealLine_shallow_dec (x1 y1 x2 y2 : Int) (h : |y2 - y1| < |x2 - x1|)
    (hy : y1 ≤ y2) (hx : ¬ x1 < x2) :
    idealLine x1 y1 x2 y2 = (x1, y1) :: idealLoopXDec x1 y1 x2
      (2 * (y2 - y1) - (x1 - x2)) (2 * (y2 - y1)) (2 * ((y2 - y1) - (x1 - x2))) := by
  unfold idealLine
  rw [if_pos h]
  simp only [gt_iff_lt, not_lt.2 hy, if_false, hx]
  have hne : x2 - x1 < 0 := by
    rcases lt_or_eq_of_le (not_lt.1 hx) with h1 | h1
    · omega
    · subst h1; simp at h; exact absurd h (not_lt.2 (abs_nonneg _))
  rw [abs_of_nonneg (by omega : 0 ≤ y2 - y1), abs_of_neg hne, neg_sub]

theorem idealLine_shallow_swap (x1 y1 x2 y2 : Int) (h : |y2 - y1| < |x2 - x1|)
    (hy : y2 < y1) : idealLine x1 y1 x2 y2 = idealLine x2 y2 x1 y1 := by
  have h2 : |y1 - y2| < |x1 - x2| := by rwa [abs_sub_comm y1, abs_sub_comm x1]
  unfold idealLine
  rw [if_pos h, if_pos h2]
  simp only [gt_iff_lt, hy, if_true, not_lt.2 (le_of_lt hy), if_false]

theorem idealLine_steep_inc (x1 y1 x2 y2 : Int) (h : ¬ |y2 - y1| < |x2 - x1|)
    (hx : x1 ≤ x2) (hy : y1 < y2) :
    idealLine x1 y1 x2 y2 = (x1, y1) :: idealLoopYInc x1 y1 y2
      (2 * (x2 - x1) - (y2 - y1)) (2 * (x2 - x1)) (2 * ((x2 - x1) - (y2 - y1))) := by
  unfold idealLine
  rw [if_neg h]
  simp only [gt_iff_lt, not_lt.2 hx, if_false, hy, if_true]
  rw [abs_of_nonneg (by omega : 0 ≤ x2 - x1), abs_of_pos (by omega : 0 < y2 - y1)]

/-- In the steep branch, once the endpoints are ordered by `x`, a segment
whose `y` does not increase makes the single call `putPixel(x1, y1)`. -/
theorem idealLine_steep_stop (x1 y1 x2 y2 : Int) (h : ¬ |y2 - y1| < |x2 - x1|)
    (hx : x1 ≤ x2) (hy : ¬ y1 < y2) :
    idealLine x1 y1 x2 y2 = [(x1, y1)] := by
  unfold idealLine
  rw [if_neg h]
  simp only [gt_iff_lt, not_lt.2 hx, if_false, hy]
  rw [idealLoopYDec_of_not_lt _ _ _ _ _ _ _ hy]

theorem idealLine_steep_swap (x1 y1 x2 y2 : Int) (h : ¬ |y2 - y1| < |x2 - x1|)
    (hx : x2 < x1) : idealLine x1 y1 x2 y2 = idealLine x2 y2 x1 y1 := by
  have h2 : ¬ |y1 - y2| < |x1 - x2| := by rwa [abs_sub_comm y1, abs_sub_comm x1]
  unfold idealLine
  rw [if_neg h, if_neg h2]
  simp only [gt_iff_lt, hx, if_true, not_lt.2 (le_of_lt hx), if_false]

theorem cons_range_shift (n : Nat) (f : Int → Int) :
    f 0 :: (List.range n).map (fun k : Nat => f (1 + (k : Int)))
      = (List.range (n + 1)).map (fun k : Nat => f (k : Int)) := by
  rw [List.range_succ_eq_map]
  simp only [List.map_cons, List.map_map, Function.comp_def, Nat.cast_zero, Nat.cast_succ,
    List.cons.injEq, true_and]
  apply List.map_congr_left
  intro k _
  congr 1
  ring

/-- An x-driven segment given with `y1 ≤ y2`: the driving coordinates, the
range of the minor coordinate, and the first and last calls. -/
theorem idealLine_shallow_core (x1 y1 x2 y2 : Int) (h : |y2 - y1| < |x2 - x1|)
    (hy : y1 ≤ y2) :
    (idealLine x1 y1 x2 y2).map Prod.fst
        = (List.range ((x2 - x1).natAbs + 1)).map
            (fun k : Nat => if x1 < x2 then x1 + (k : Int) else x1 - (k : Int)) ∧
      (∀ p ∈ idealLine x1 y1 x2 y2, y1 ≤ p.2 ∧ p.2 ≤ y2) ∧
      (idealLine x1 y1 x2 y2).head? = some (x1, y1) ∧
      (idealLine x1 y1 x2 y2).getLast? = some (x2, y2) := by
  have hy0 : |y2 - y1| = y2 - y1 := abs_of_nonneg (by omega)
  by_cases hx : x1 < x2
  · have hx0 : |x2 - x1| = x2 - x1 := abs_of_pos (by omega)
    rw [hy0, hx0] at h
    have hinv := idealLoopXInc_inv (x2 - x1) (y2 - y1) x2 y2 (by omega) (by omega) (by omega)
      x1 y1 (2 * (y2 - y1) - (x2 - x1)) (2 * (y2 - y1)) (2 * ((y2 - y1) - (x2 - x1)))
      rfl rfl (by omega) (by ring) (by nlinarith) (by nlinarith)
    rw [idealLine_shallow_inc x1 y1 x2 y2 (by rw [hy0, hx0]; exact h) hy hx]
    refine ⟨?_, hinv.1, rfl, hinv.2⟩
    rw [List.map_cons, idealLoopXInc_fst]
    have hn : (x2 - x1).natAbs = (x2 - x1).toNat := by omega
    rw [hn]
    simp only [hx, if_true]
    have := cons_range_shift (x2 - x1).toNat (fun t => x1 + t)
    simp only [add_zero, ← add_assoc] at this
    exact this
  · have hne : x2 - x1 < 0 := by
      rcases lt_or_eq_of_le (not_lt.1 hx) with h1 | h1
      · omega
      · subst h1; simp at h; exact absurd h (not_lt.2 (abs_nonneg _))
    have hx0 : |x2 - x1| = x1 - x2 := by rw [abs_of_neg hne, neg_sub]
    have h' := h
    rw [hy0, hx0] at h'
    have hinv := idealLoopXInc_inv (x1 - x2) (y2 - y1) (-x2) y2 (by omega) (by omega) (by omega)
      (-x1) y1 (2 * (y2 - y1) - (x1 - x2)) (2 * (y2 - y1)) (2 * ((y2 - y1) - (x1 - x2)))
      rfl rfl (by omega) (by ring) (by nlinarith) (by nlinarith)
    rw [idealLine_shallow_dec x1 y1 x2 y2 h hy hx, idealLoopXDec_eq]
    have hcons : (x1, y1) :: (idealLoopXInc (-x1) y1 (-x2) (2 * (y2 - y1) - (x1 - x2))
          (2 * (y2 - y1)) (2 * ((y2 - y1) - (x1 - x2)))).map (fun p => (-p.1, p.2))
        = ((-x1, y1) :: idealLoopXInc (-x1) y1 (-x2) (2 * (y2 - y1) - (x1 - x2))
          (2 * (y2 - y1)) (2 * ((y2 - y1) - (x1 - x2)))).map (fun p => (-p.1, p.2)) := by
      simp
    rw [hcons]
    refine ⟨?_, ?_, ?_, ?_⟩
    · rw [List.map_map]
      have : (Prod.fst ∘ fun p : Int × Int => (-p.1, p.2)) = (fun t => -t) ∘ Prod.fst := by
        funext p; rfl
      rw [this, ← List.map_map, List.map_cons, idealLoopXInc_fst]
      have hn : (x2 - x1).natAbs = (-x2 - -x1).toNat := by omega
      rw [hn]
      simp only [hx, if_false]
      have := cons_range_shift (-x2 - -x1).toNat (fun t => -x1 + t)
      simp only [add_zero, ← add_assoc] at this
      rw [this, List.map_map]
      apply List.map_congr_left
      intro k _
      simp only [Function.comp_def]
      ring
    · intro p hp
      obtain ⟨q, hq, rfl⟩ := List.mem_map.1 hp
      exact hinv.1 q hq
    · simp
    · rw [List.getLast?_map, hinv.2]
      simp
  
/-- The run of driving coordinates from `a` towards `b`: its length, its
distinctness and its members. -/
theorem drive_run (a b : Int) :
    ((List.range ((b - a).natAbs + 1)).map
        (fun k : Nat => if a < b then a + (k : Int) else a - (k : Int))).length
        = (b - a).natAbs + 1 ∧
      ((List.range ((b - a).natAbs + 1)).map
        (fun k : Nat => if a < b then a + (k : Int) else a - (k : Int))).Nodup ∧
      ∀ x, x ∈ (List.range ((b - a).natAbs + 1)).map
        (fun k : Nat => if a < b then a + (k : Int) else a - (k : Int))
          ↔ min a b ≤ x ∧ x ≤ max a b := by
  refine ⟨by simp, ?_, ?_⟩
  · apply List.Nodup.map _ (List.nodup_range _)
    intro i j hij
    by_cases hab : a < b
    · simp only [hab, if_true] at hij; omega
    · simp only [hab, if_false] at hij; omega
  · intro x
    simp only [List.mem_map, List.mem_range]
    by_cases hab : a < b
    · simp only [hab, if_true]
      constructor
      · rintro ⟨k, hk, rfl⟩
        omega
      · intro hx
        exact ⟨(x - a).toNat, by omega, by omega⟩
    · simp only [hab, if_false]
      constructor
      · rintro ⟨k, hk, rfl⟩
        omega
      · intro hx
        exact ⟨(a - x).toNat, by omega, by omega⟩

/-- A steep segment given with `x1 ≤ x2` and `y1 < y2`: the driving
coordinates, the range of the minor coordinate, and the first and last calls. -/
theorem idealLine_steep_core (x1 y1 x2 y2 : Int) (h : ¬ |y2 - y1| < |x2 - x1|)
    (hx : x1 ≤ x2) (hy : y1 < y2) :
    (idealLine x1 y1 x2 y2).map Prod.snd
        = (List.range ((y2 - y1).natAbs + 1)).map (fun k : Nat => y1 + (k : Int)) ∧
      (∀ p ∈ idealLine x1 y1 x2 y2, x1 ≤ p.1 ∧ p.1 ≤ x2) ∧
      (idealLine x1 y1 x2 y2).head? = some (x1, y1) ∧
      (idealLine x1 y1 x2 y2).getLast? = some (x2, y2) := by
  have hy0 : |y2 - y1| = y2 - y1 := abs_of_pos (by omega)
  have hx0 : |x2 - x1| = x2 - x1 := abs_of_nonneg (by omega)
  have h' := h
  rw [hy0, hx0] at h'
  have hinv := idealLoopXInc_inv (y2 - y1) (x2 - x1) y2 x2 (by omega) (by omega) (by omega)
    y1 x1 (2 * (x2 - x1) - (y2 - y1)) (2 * (x2 - x1)) (2 * ((x2 - x1) - (y2 - y1)))
    rfl rfl (by omega) (by ring) (by nlinarith) (by nlinarith)
  rw [idealLine_steep_inc x1 y1 x2 y2 h hx hy, idealLoopYInc_eq]
  have hcons : (x1, y1) :: (idealLoopXInc y1 x1 y2 (2 * (x2 - x1) - (y2 - y1))
        (2 * (x2 - x1)) (2 * ((x2 - x1) - (y2 - y1)))).map Prod.swap
      = ((y1, x1) :: idealLoopXInc y1 x1 y2 (2 * (x2 - x1) - (y2 - y1))
        (2 * (x2 - x1)) (2 * ((x2 - x1) - (y2 - y1)))).map Prod.swap := by
    simp
  rw [hcons]
  refine ⟨?_, ?_, ?_, ?_⟩
  · rw [List.map_map]
    have : (Prod.snd ∘ Prod.swap : Int × Int → Int) = Prod.fst := by
      funext p; rfl
    rw [this, List.map_cons, idealLoopXInc_fst]
    have hn : (y2 - y1).natAbs = (y2 - y1).toNat := by omega
    rw [hn]
    have := cons_range_shift (y2 - y1).toNat (fun t => y1 + t)
    simp only [add_zero, ← add_assoc] at this
    exact this
  · intro p hp
    obtain ⟨q, hq, rfl⟩ := List.mem_map.1 hp
    exact hinv.1 q hq
  · simp
  · rw [List.getLast?_map, hinv.2]
    simp

/-- Every call of `idealLine` lies in the bounding box of the two endpoints. -/
theorem idealLine_mem_box (x1 y1 x2 y2 : Int) (p : Int × Int)
    (hp : p ∈ idealLine x1 y1 x2 y2) :
    (min x1 x2 ≤ p.1 ∧ p.1 ≤ max x1 x2) ∧ (min y1 y2 ≤ p.2 ∧ p.2 ≤ max y1 y2) := by
  by_cases h : |y2 - y1| < |x2 - x1|
  · by_cases hy : y1 ≤ y2
    · obtain ⟨hf, hb, -, -⟩ := idealLine_shallow_core x1 y1 x2 y2 h hy
      have hm : p.1 ∈ (idealLine x1 y1 x2 y2).map Prod.fst := List.mem_map_of_mem _ hp
      rw [hf] at hm
      have := ((drive_run x1 x2).2.2 p.1).1 hm
      have := hb p hp
      omega
    · have h2 : |y1 - y2| < |x1 - x2| := by rwa [abs_sub_comm y1, abs_sub_comm x1]
      rw [idealLine_shallow_swap x1 y1 x2 y2 h (by omega)] at hp
      obtain ⟨hf, hb, -, -⟩ := idealLine_shallow_core x2 y2 x1 y1 h2 (by omega)
      have hm : p.1 ∈ (idealLine x2 y2 x1 y1).map Prod.fst := List.mem_map_of_mem _ hp
      rw [hf] at hm
      have := ((drive_run x2 x1).2.2 p.1).1 hm
      have := hb p hp
      omega
  · have key : ∀ a b c d : Int, ¬ |d - b| < |c - a| → a ≤ c → ∀ q ∈ idealLine a b c d,
        (a ≤ q.1 ∧ q.1 ≤ c) ∧ (min b d ≤ q.2 ∧ q.2 ≤ max b d) := by
      intro a b c d hs hac q hq
      by_cases hbd : b < d
      · obtain ⟨hf, hb, -, -⟩ := idealLine_steep_core a b c d hs hac hbd
        have hm : q.2 ∈ (idealLine a b c d).map Prod.snd := List.mem_map_of_mem _ hq
        rw [hf] at hm
        obtain ⟨k, hk, hkq⟩ := List.mem_map.1 hm
        have hk := List.mem_range.1 hk
        have := hb q hq
        omega
      · rw [idealLine_steep_stop a b c d hs hac hbd] at hq
        have : q = (a, b) := by simpa using hq
        subst this
        simp only
        omega
    by_cases hx : x1 ≤ x2
    · have := key x1 y1 x2 y2 h hx p hp
      omega
    · have h2 : ¬ |y1 - y2| < |x1 - x2| := by rwa [abs_sub_comm y1, abs_sub_comm x1]
      rw [idealLine_steep_swap x1 y1 x2 y2 h (by omega)] at hp
      have := key x2 y2 x1 y1 h2 (by omega) p hp
      omega

/-- A call outside `[0, W) × [0, H)` leaves the buffer as it is. -/
theorem putPixel_outside (W H : Int) (b : Image) (x y : Int)
    (h : ¬ (0 ≤ x ∧ x < W ∧ 0 ≤ y ∧ y < H)) : putPixel W H b x y = b := by
  unfold putPixel
  rw [if_pos]
  omega

theorem drawPixels_outside (W H : Int) (ps : List (Int × Int)) :
    ∀ img : Image, (∀ p ∈ ps, ¬ (0 ≤ p.1 ∧ p.1 < W ∧ 0 ≤ p.2 ∧ p.2 < H)) →
      drawPixels W H img ps = img := by
  induction ps with
  | nil => intro img _; rfl
  | cons p ps ih =>
    intro img hps
    unfold drawPixels at ih ⊢
    rw [List.foldl_cons, putPixel_outside W H img p.1 p.2 (hps p (List.mem_cons_self _ _))]
    exact ih img (fun q hq => hps q (List.mem_cons_of_mem _ hq))

/-- Over unbounded integers an x-driven segment makes `|x2 - x1| + 1` calls,
one for each integer `x` between `x1` and `x2`, the first and the last being
the endpoints; and the first line of `drawImage` is the row `10` from `150` to
`450`. -/
theorem idealLine_x_driven (x1 y1 x2 y2 : Int) (h : |y2 - y1| < |x2 - x1|) :
    (idealLine x1 y1 x2 y2).length = (x2 - x1).natAbs + 1 ∧
      ((idealLine x1 y1 x2 y2).map Prod.fst).Nodup ∧
      (∀ x, x ∈ (idealLine x1 y1 x2 y2).map Prod.fst ↔ min x1 x2 ≤ x ∧ x ≤ max x1 x2) ∧
      (idealLine x1 y1 x2 y2).head? = some (if y1 > y2 then (x2, y2) else (x1, y1)) ∧
      (idealLine x1 y1 x2 y2).getLast? = some (if y1 > y2 then (x1, y1) else (x2, y2)) ∧
      idealLine 150 10 450 10
        = (List.range 301).map (fun k : Nat => ((150 : Int) + (k : Int), (10 : Int))) := by
  have hline : idealLine 150 10 450 10
      = (List.range 301).map (fun k : Nat => ((150 : Int) + (k : Int), (10 : Int))) := by
    obtain ⟨hf, hb, -, -⟩ := idealLine_shallow_core 150 10 450 10 (by decide) (by decide)
    have hl : idealLine 150 10 450 10
        = ((idealLine 150 10 450 10).map Prod.fst).map (fun x => (x, (10 : Int))) := by
      rw [List.map_map]
      conv_lhs => rw [← List.map_id (idealLine 150 10 450 10)]
      apply List.map_congr_left
      intro p hp
      have := hb p hp
      have h2 : p.2 = 10 := by omega
      simp only [id, Function.comp_def]
      rw [← h2]
    rw [hl, hf, List.map_map]
    apply List.map_congr_left
    intro k _
    simp
  by_cases hy : y1 ≤ y2
  · obtain ⟨hf, -, hh, hl⟩ := idealLine_shallow_core x1 y1 x2 y2 h hy
    obtain ⟨r1, r2, r3⟩ := drive_run x1 x2
    rw [← hf] at r1 r2 r3
    rw [List.length_map] at r1
    simp only [gt_iff_lt, not_lt.2 hy, if_false]
    exact ⟨r1, r2, r3, hh, hl, hline⟩
  · have hy2 : y2 < y1 := by omega
    have h2 : |y1 - y2| < |x1 - x2| := by rwa [abs_sub_comm y1, abs_sub_comm x1]
    obtain ⟨hf, -, hh, hl⟩ := idealLine_shallow_core x2 y2 x1 y1 h2 (by omega)
    obtain ⟨r1, r2, r3⟩ := drive_run x2 x1
    rw [← hf] at r1 r2 r3
    rw [List.length_map] at r1
    rw [idealLine_shallow_swap x1 y1 x2 y2 h hy2]
    simp only [gt_iff_lt, hy2, if_true]
    refine ⟨by rw [r1]; omega, r2, ?_, hh, hl, hline⟩
    intro x
    rw [r3 x, min_comm, max_comm]

/-- A horizontal segment covers exactly the cells of its row between the two
endpoints. -/
theorem mem_idealLine_horizontal (x1 x2 y : Int) (hx : x1 ≠ x2) (p : Int × Int) :
    p ∈ idealLine x1 y x2 y ↔ (min x1 x2 ≤ p.1 ∧ p.1 ≤ max x1 x2) ∧ p.2 = y := by
  have h : |y - y| < |x2 - x1| := by
    rw [sub_self, abs_zero]
    exact abs_pos.2 (sub_ne_zero.2 (Ne.symm hx))
  obtain ⟨hf, hb, -, -⟩ := idealLine_shallow_core x1 y x2 y h (le_refl y)
  have hrun := (drive_run x1 x2).2.2
  rw [← hf] at hrun
  constructor
  · intro hp
    have := hb p hp
    exact ⟨(hrun p.1).1 (List.mem_map_of_mem _ hp), by omega⟩
  · rintro ⟨hr, hy⟩
    obtain ⟨q, hq, hq1⟩ := List.mem_map.1 ((hrun p.1).2 hr)
    have := hb q hq
    have hqp : q = p := by
      ext
      · exact hq1
      · omega
    rw [← hqp]
    exact hq

/-- The two directions of a segment give the same set of calls exactly when
the segment is not vertical (or has length zero). -/
theorem idealLine_reverse_iff (x1 y1 x2 y2 : Int) :
    (∀ p, p ∈ idealLine x1 y1 x2 y2 ↔ p ∈ idealLine x2 y2 x1 y1) ↔ (x1 ≠ x2 ∨ y1 = y2) := by
  constructor
  · intro h
    by_contra hc
    have hx : x1 = x2 := by omega
    have hy : y1 ≠ y2 := by omega
    subst hx
    have hs : ∀ a b : Int, ¬ |b - a| < |x1 - x1| := by
      intro a b
      rw [sub_self, abs_zero]
      exact not_lt.2 (abs_nonneg _)
    rcases lt_or_gt_of_ne hy with hlt | hgt
    · have h1 := (idealLine_steep_core x1 y1 x1 y2 (hs _ _) (le_refl _) hlt).2.2.1
      have h2 := idealLine_steep_stop x1 y2 x1 y1 (hs _ _) (le_refl _) (by omega)
      have := (h (x1, y1)).1 (List.mem_of_mem_head? h1)
      rw [h2] at this
      simp at this
      omega
    · have h1 := (idealLine_steep_core x1 y2 x1 y1 (hs _ _) (le_refl _) hgt).2.2.1
      have h2 := idealLine_steep_stop x1 y1 x1 y2 (hs _ _) (le_refl _) (by omega)
      have := (h (x1, y2)).2 (List.mem_of_mem_head? h1)
      rw [h2] at this
      simp at this
      omega
  · intro hne p
    by_cases h : |y2 - y1| < |x2 - x1|
    · have h2 : |y1 - y2| < |x1 - x2| := by rwa [abs_sub_comm y1, abs_sub_comm x1]
      rcases lt_trichotomy y1 y2 with hlt | heq | hgt
      · rw [idealLine_shallow_swap x2 y2 x1 y1 h2 hlt]
      · subst heq
        have hx : x1 ≠ x2 := by
          rintro rfl
          simp at h
        rw [mem_idealLine_horizontal x1 x2 y1 hx, mem_idealLine_horizontal x2 x1 y1 (Ne.symm hx),
          min_comm, max_comm]
      · rw [idealLine_shallow_swap x1 y1 x2 y2 h hgt]
    · have h2 : ¬ |y1 - y2| < |x1 - x2| := by rwa [abs_sub_comm y1, abs_sub_comm x1]
      rcases lt_trichotomy x1 x2 with hlt | heq | hgt
      · rw [idealLine_steep_swap x2 y2 x1 y1 h2 hlt]
      · have hy : y1 = y2 := by omega
        subst heq hy
        rfl
      · rw [idealLine_steep_swap x1 y1 x2 y2 h hgt]

end Raster

/-! ## Theorems: the 32-bit routines on in-range inputs -/

namespace Raster

theorem wrap_eq (z : Int) (h1 : -2147483648 ≤ z) (h2 : z < 2147483648) : wrap z = z := by
  unfold wrap
  omega

theorem iabs_eq (z : Int) (h1 : -2147483648 < z) (h2 : z < 2147483648) : iabs z = |z| := by
  unfold iabs
  apply wrap_eq
  · have := abs_nonneg z; omega
  · rcases abs_cases z with ⟨h, _⟩ | ⟨h, _⟩ <;> omega

/-- On a run of the increasing shallow loop that keeps the midpoint invariant
towards a target `(xt, yt)` inside the `int` range, no result overflows. -/
theorem lineLoopXInc_eq_ideal (dx dy xt yt : Int) (hdx : 0 < dx) (hdy0 : 0 ≤ dy)
    (hdy : dy ≤ dx) (hb1 : 2 * dy < 2147483648) (hb2 : -2147483648 ≤ 2 * (dy - dx))
    (hxt : xt < 2147483648) (hyt : yt < 2147483648) (x1 y1 D i0 i1 : Int) :
    i0 = 2 * dy → i1 = 2 * (dy - dx) → x1 ≤ xt → -2147483648 ≤ x1 → -2147483648 ≤ y1 →
    D = 2 * dy - dx + (2 * (yt - y1) * dx - 2 * (xt - x1) * dy) →
    -dx < 2 * (yt - y1) * dx - 2 * (xt - x1) * dy →
    2 * (yt - y1) * dx - 2 * (xt - x1) * dy ≤ dx →
    ∀ fuel : Nat, (xt - x1).toNat ≤ fuel →
      lineLoopXInc fuel x1 y1 xt D i0 i1 = idealLoopXInc x1 y1 xt D i0 i1 := by
  induction x1, y1, xt, D, i0, i1 using idealLoopXInc.induct with
  | case1 x1 y1 xt D i0 i1 h hD ih =>
    intro h0 h1 hx hx1 hy1 hDe hlo hhi fuel hfuel
    subst h0 h1
    cases fuel with
    | zero => omega
    | succ n =>
      rw [idealLoopXInc, if_pos h, if_pos hD]
      simp only [lineLoopXInc, if_pos h, if_pos hD]
      have wx : wrap (x1 + 1) = x1 + 1 := wrap_eq _ (by omega) (by omega)
      have wD : wrap (D + 2 * dy) = D + 2 * dy := wrap_eq _ (by nlinarith) (by nlinarith)
      rw [wx, wD]
      congr 1
      exact ih hxt rfl rfl (by omega) (by omega) hy1 (by rw [hDe]; ring) (by nlinarith)
        (by nlinarith) n (by omega)
  | case2 x1 y1 xt D i0 i1 h hD ih =>
    intro h0 h1 hx hx1 hy1 hDe hlo hhi fuel hfuel
    subst h0 h1
    cases fuel with
    | zero => omega
    | succ n =>
      rw [idealLoopXInc, if_pos h, if_neg hD]
      simp only [lineLoopXInc, if_pos h, if_neg hD]
      have hlo2 : -dx < 2 * (yt - (y1 + 1)) * dx - 2 * (xt - (x1 + 1)) * dy := by nlinarith
      have hhi2 : 2 * (yt - (y1 + 1)) * dx - 2 * (xt - (x1 + 1)) * dy ≤ dx := by nlinarith
      have hyle : y1 + 1 ≤ yt := by
        by_contra hc
        have h3 : (yt - (y1 + 1)) * dx ≤ -dx := by nlinarith
        have h4 : 0 ≤ (xt - (x1 + 1)) * dy := mul_nonneg (by omega) hdy0
        nlinarith
      have wx : wrap (x1 + 1) = x1 + 1 := wrap_eq _ (by omega) (by omega)
      have wy : wrap (y1 + 1) = y1 + 1 := wrap_eq _ (by omega) (by omega)
      have wD : wrap (D + 2 * (dy - dx)) = D + 2 * (dy - dx) :=
        wrap_eq _ (by nlinarith) (by nlinarith)
      rw [wx, wy, wD]
      congr 1
      exact ih hxt rfl rfl (by omega) (by omega) (by omega) (by rw [hDe]; ring) hlo2 hhi2
        n (by omega)
  | case3 x1 y1 xt D i0 i1 h =>
    intro h0 h1 hx hx1 hy1 hDe hlo hhi fuel hfuel
    rw [idealLoopXInc, if_neg h]
    cases fuel with
    | zero => rfl
    | succ n => simp only [lineLoopXInc, if_neg h]

/-- The same for the decreasing shallow loop. -/
theorem lineLoopXDec_eq_ideal (dx dy xt yt : Int) (hdx : 0 < dx) (hdy0 : 0 ≤ dy)
    (hdy : dy ≤ dx) (hb1 : 2 * dy < 2147483648) (hb2 : -2147483648 ≤ 2 * (dy - dx))
    (hxt : -2147483648 ≤ xt) (hyt : yt < 2147483648) (x1 y1 D i0 i1 : Int) :
    i0 = 2 * dy → i1 = 2 * (dy - dx) → xt ≤ x1 → x1 < 2147483648 → -2147483648 ≤ y1 →
    D = 2 * dy - dx + (2 * (yt - y1) * dx - 2 * (x1 - xt) * dy) →
    -dx < 2 * (yt - y1) * dx - 2 * (x1 - xt) * dy →
    2 * (yt - y1) * dx - 2 * (x1 - xt) * dy ≤ dx →
    ∀ fuel : Nat, (x1 - xt).toNat ≤ fuel →
      lineLoopXDec fuel x1 y1 xt D i0 i1 = idealLoopXDec x1 y1 xt D i0 i1 := by
  induction x1, y1, xt, D, i0, i1 using idealLoopXDec.induct with
  | case1 x1 y1 xt D i0 i1 h hD ih =>
    intro h0 h1 hx hx1 hy1 hDe hlo hhi fuel hfuel
    subst h0 h1
    cases fuel with
    | zero => omega
    | succ n =>
      rw [idealLoopXDec, if_pos h, if_pos hD]
      simp only [lineLoopXDec, if_pos h, if_pos hD]
      have wx : wrap (x1 - 1) = x1 - 1 := wrap_eq _ (by omega) (by omega)
      have wD : wrap (D + 2 * dy) = D + 2 * dy := wrap_eq _ (by nlinarith) (by nlinarith)
      rw [wx, wD]
      congr 1
      exact ih hxt rfl rfl (by omega) (by omega) hy1 (by rw [hDe]; ring) (by nlinarith)
        (by nlinarith) n (by omega)
  | case2 x1 y1 xt D i0 i1 h hD ih =>
    intro h0 h1 hx hx1 hy1 hDe hlo hhi fuel hfuel
    subst h0 h1
    cases fuel with
    | zero => omega
    | succ n =>
      rw [idealLoopXDec, if_pos h, if_neg hD]
      simp only [lineLoopXDec, if_pos h, if_neg hD]
      have hlo2 : -dx < 2 * (yt - (y1 + 1)) * dx - 2 * (x1 - 1 - xt) * dy := by nlinarith
      have hhi2 : 2 * (yt - (y1 + 1)) * dx - 2 * (x1 - 1 - xt) * dy ≤ dx := by nlinarith
      have hyle : y1 + 1 ≤ yt := by
        by_contra hc
        have h3 : (yt - (y1 + 1)) * dx ≤ -dx := by nlinarith
        have h4 : 0 ≤ (x1 - 1 - xt) * dy := mul_nonneg (by omega) hdy0
        nlinarith
      have wx : wrap (x1 - 1) = x1 - 1 := wrap_eq _ (by omega) (by omega)
      have wy : wrap (y1 + 1) = y1 + 1 := wrap_eq _ (by omega) (by omega)
      have wD : wrap (D + 2 * (dy - dx)) = D + 2 * (dy - dx) :=
        wrap_eq _ (by nlinarith) (by nlinarith)
      rw [wx, wy, wD]
      congr 1
      exact ih hxt rfl rfl (by omega) (by omega) (by omega) (by rw [hDe]; ring) hlo2 hhi2
        n (by omega)
  | case3 x1 y1 xt D i0 i1 h =>
    intro h0 h1 hx hx1 hy1 hDe hlo hhi fuel hfuel
    rw [idealLoopXDec, if_neg h]
    cases fuel with
    | zero => rfl
    | succ n => simp only [lineLoopXDec, if_neg h]

/-- The same for the increasing steep loop, `a` the extent along `y` and `b`
the extent along `x`. -/
theorem lineLoopYInc_eq_ideal (a b xt yt : Int) (ha : 0 < a) (hb0 : 0 ≤ b)
    (hb : b ≤ a) (hb1 : 2 * b < 2147483648) (hb2 : -2147483648 ≤ 2 * (b - a))
    (hxt : xt < 2147483648) (hyt : yt < 2147483648) (x1 y1 D i0 i1 : Int) :
    i0 = 2 * b → i1 = 2 * (b - a) → y1 ≤ yt → -2147483648 ≤ x1 → -2147483648 ≤ y1 →
    D = 2 * b - a + (2 * (xt - x1) * a - 2 * (yt - y1) * b) →
    -a < 2 * (xt - x1) * a - 2 * (yt - y1) * b →
    2 * (xt - x1) * a - 2 * (yt - y1) * b ≤ a →
    ∀ fuel : Nat, (yt - y1).toNat ≤ fuel →
      lineLoopYInc fuel x1 y1 yt D i0 i1 = idealLoopYInc x1 y1 yt D i0 i1 := by
  induction x1, y1, yt, D, i0, i1 using idealLoopYInc.induct with
  | case1 x1 y1 yt D i0 i1 h hD ih =>
    intro h0 h1 hy hx1 hy1 hDe hlo hhi fuel hfuel
    subst h0 h1
    cases fuel with
    | zero => omega
    | succ n =>
      rw [idealLoopYInc, if_pos h, if_pos hD]
      simp only [lineLoopYInc, if_pos h, if_pos hD]
      have wy : wrap (y1 + 1) = y1 + 1 := wrap_eq _ (by omega) (by omega)
      have wD : wrap (D + 2 * b) = D + 2 * b := wrap_eq _ (by nlinarith) (by nlinarith)
      rw [wy, wD]
      congr 1
      exact ih hyt rfl rfl (by omega) hx1 (by omega) (by rw [hDe]; ring) (by nlinarith)
        (by nlinarith) n (by omega)
  | case2 x1 y1 yt D i0 i1 h hD ih =>
    intro h0 h1 hy hx1 hy1 hDe hlo hhi fuel hfuel
    subst h0 h1
    cases fuel with
    | zero => omega
    | succ n =>
      rw [idealLoopYInc, if_pos h, if_neg hD]
      simp only [lineLoopYInc, if_pos h, if_neg hD]
      have hlo2 : -a < 2 * (xt - (x1 + 1)) * a - 2 * (yt - (y1 + 1)) * b := by nlinarith
      have hhi2 : 2 * (xt - (x1 + 1)) * a - 2 * (yt - (y1 + 1)) * b ≤ a := by nlinarith
      have hxle : x1 + 1 ≤ xt := by
        by_contra hc
        have h3 : (xt - (x1 + 1)) * a ≤ -a := by nlinarith
        have h4 : 0 ≤ (yt - (y1 + 1)) * b := mul_nonneg (by omega) hb0
        nlinarith
      have wx : wrap (x1 + 1) = x1 + 1 := wrap_eq _ (by omega) (by omega)
      have wy : wrap (y1 + 1) = y1 + 1 := wrap_eq _ (by omega) (by omega)
      have wD : wrap (D + 2 * (b - a)) = D + 2 * (b - a) :=
        wrap_eq _ (by nlinarith) (by nlinarith)
      rw [wx, wy, wD]
      congr 1
      exact ih hyt rfl rfl (by omega) (by omega) (by omega) (by rw [hDe]; ring) hlo2 hhi2
        n (by omega)
  | case3 x1 y1 yt D i0 i1 h =>
    intro h0 h1 hy hx1 hy1 hDe hlo hhi fuel hfuel
    rw [idealLoopYInc, if_neg h]
    cases fuel with
    | zero => rfl
    | succ n => simp only [lineLoopYInc, if_neg h]

theorem lineLoopYDec_of_not_lt (fuel : Nat) (x1 y1 y2 D i0 i1 : Int) (h : ¬ y1 < y2) :
    lineLoopYDec fuel x1 y1 y2 D i0 i1 = [] := by
  cases fuel with
  | zero => rfl
  | succ n => simp [lineLoopYDec, h]

/-- The body of the shallow branch of `drawLine` once the endpoints are
ordered by `y`, on in-range endpoints. -/
theorem shallow_body_eq_ideal (x1 y1 x2 y2 : Int)
    (h1 : isInt x1) (h2 : isInt y1) (h3 : isInt x2) (h4 : isInt y2)
    (hdx : |x2 - x1| < 1073741824) (hs : |y2 - y1| < |x2 - x1|) (hy : y1 ≤ y2) :
    (x1, y1) ::
      (if x1 < x2 then
        lineLoopXInc loopFuel x1 y1 x2
          (wrap (wrap (2 * iabs (wrap (y2 - y1))) - iabs (wrap (x2 - x1))))
          (wrap (2 * iabs (wrap (y2 - y1))))
          (wrap (2 * wrap (iabs (wrap (y2 - y1)) - iabs (wrap (x2 - x1)))))
       else
        lineLoopXDec loopFuel x1 y1 x2
          (wrap (wrap (2 * iabs (wrap (y2 - y1))) - iabs (wrap (x2 - x1))))
          (wrap (2 * iabs (wrap (y2 - y1))))
          (wrap (2 * wrap (iabs (wrap (y2 - y1)) - iabs (wrap (x2 - x1))))))
      = idealLine x1 y1 x2 y2 := by
  unfold isInt at h1 h2 h3 h4
  have hy0 : |y2 - y1| = y2 - y1 := abs_of_nonneg (by omega)
  have ey : iabs (wrap (y2 - y1)) = y2 - y1 := by
    rw [wrap_eq _ (by omega) (by omega), iabs_eq _ (by omega) (by omega), hy0]
  rw [hy0] at hs
  by_cases hx : x1 < x2
  · have hx0 : |x2 - x1| = x2 - x1 := abs_of_pos (by omega)
    rw [hx0] at hs hdx
    have ex : iabs (wrap (x2 - x1)) = x2 - x1 := by
      rw [wrap_eq _ (by omega) (by omega), iabs_eq _ (by omega) (by omega), hx0]
    rw [idealLine_shallow_inc x1 y1 x2 y2 (by rw [hy0, hx0]; exact hs) hy hx, if_pos hx, ex, ey,
      wrap_eq (2 * (y2 - y1)) (by omega) (by omega),
      wrap_eq (2 * (y2 - y1) - (x2 - x1)) (by omega) (by omega),
      wrap_eq (y2 - y1 - (x2 - x1)) (by omega) (by omega),
      wrap_eq (2 * (y2 - y1 - (x2 - x1))) (by omega) (by omega)]
    congr 1
    exact lineLoopXInc_eq_ideal (x2 - x1) (y2 - y1) x2 y2 (by omega) (by omega) (by omega)
      (by omega) (by omega) h3.2 h4.2 x1 y1 _ _ _ rfl rfl (by omega) h1.1 h2.1 (by ring)
      (by nlinarith) (by nlinarith) loopFuel (by unfold loopFuel; omega)
  · have hne : x2 - x1 < 0 := by
      rcases lt_or_eq_of_le (not_lt.1 hx) with h | h
      · omega
      · subst h; simp at hs; omega
    have hx0 : |x2 - x1| = x1 - x2 := by rw [abs_of_neg hne, neg_sub]
    have hs0 := hs
    rw [hx0] at hs hdx
    have ex : iabs (wrap (x2 - x1)) = x1 - x2 := by
      rw [wrap_eq _ (by omega) (by omega), iabs_eq _ (by omega) (by omega), hx0]
    rw [idealLine_shallow_dec x1 y1 x2 y2 (by rw [hy0]; exact hs0) hy hx, if_neg hx, ex, ey,
      wrap_eq (2 * (y2 - y1)) (by omega) (by omega),
      wrap_eq (2 * (y2 - y1) - (x1 - x2)) (by omega) (by omega),
      wrap_eq (y2 - y1 - (x1 - x2)) (by omega) (by omega),
      wrap_eq (2 * (y2 - y1 - (x1 - x2))) (by omega) (by omega)]
    congr 1
    exact lineLoopXDec_eq_ideal (x1 - x2) (y2 - y1) x2 y2 (by omega) (by omega) (by omega)
      (by omega) (by omega) h3.1 h4.2 x1 y1 _ _ _ rfl rfl (by omega) h1.2 h2.1 (by ring)
      (by nlinarith) (by nlinarith) loopFuel (by unfold loopFuel; omega)

/-- The body of the steep branch of `drawLine` once the endpoints are ordered
by `x`, on in-range endpoints. -/
theorem steep_body_eq_ideal (x1 y1 x2 y2 : Int)
    (h1 : isInt x1) (h2 : isInt y1) (h3 : isInt x2) (h4 : isInt y2)
    (hdy : |y2 - y1| < 1073741824) (hs : ¬ |y2 - y1| < |x2 - x1|) (hx : x1 ≤ x2) :
    (x1, y1) ::
      (if y1 < y2 then
        lineLoopYInc loopFuel x1 y1 y2
          (wrap (wrap (2 * iabs (wrap (x2 - x1))) - iabs (wrap (y2 - y1))))
          (wrap (2 * iabs (wrap (x2 - x1))))
          (wrap (2 * wrap (iabs (wrap (x2 - x1)) - iabs (wrap (y2 - y1)))))
       else
        lineLoopYDec loopFuel x1 y1 y2
          (wrap (wrap (2 * iabs (wrap (x2 - x1))) - iabs (wrap (y2 - y1))))
          (wrap (2 * iabs (wrap (x2 - x1))))
          (wrap (2 * wrap (iabs (wrap (x2 - x1)) - iabs (wrap (y2 - y1))))))
      = idealLine x1 y1 x2 y2 := by
  unfold isInt at h1 h2 h3 h4
  have hx0 : |x2 - x1| = x2 - x1 := abs_of_nonneg (by omega)
  by_cases hy : y1 < y2
  · have hy0 : |y2 - y1| = y2 - y1 := abs_of_pos (by omega)
    have hs0 := hs
    rw [hx0, hy0] at hs
    rw [hy0] at hdy
    have ex : iabs (wrap (x2 - x1)) = x2 - x1 := by
      rw [wrap_eq _ (by omega) (by omega), iabs_eq _ (by omega) (by omega), hx0]
    have ey : iabs (wrap (y2 - y1)) = y2 - y1 := by
      rw [wrap_eq _ (by omega) (by omega), iabs_eq _ (by omega) (by omega), hy0]
    rw [idealLine_steep_inc x1 y1 x2 y2 hs0 hx hy, if_pos hy, ex, ey,
      wrap_eq (2 * (x2 - x1)) (by omega) (by omega),
      wrap_eq (2 * (x2 - x1) - (y2 - y1)) (by omega) (by omega),
      wrap_eq (x2 - x1 - (y2 - y1)) (by omega) (by omega),
      wrap_eq (2 * (x2 - x1 - (y2 - y1))) (by omega) (by omega)]
    congr 1
    exact lineLoopYInc_eq_ideal (y2 - y1) (x2 - x1) x2 y2 (by omega) (by omega) (by omega)
      (by omega) (by omega) h3.2 h4.2 x1 y1 _ _ _ rfl rfl (by omega) h1.1 h2.1 (by ring)
      (by nlinarith) (by nlinarith) loopFuel (by unfold loopFuel; omega)
  · rw [idealLine_steep_stop x1 y1 x2 y2 hs hx hy, if_neg hy,
      lineLoopYDec_of_not_lt _ _ _ _ _ _ _ hy]

/-- On endpoints in the `int` range whose coordinate differences stay below
`2^30`, no `int` result of `drawLine` overflows. -/
theorem drawLine_eq_ideal (x1 y1 x2 y2 : Int)
    (h1 : isInt x1) (h2 : isInt y1) (h3 : isInt x2) (h4 : isInt y2)
    (hdx : |x2 - x1| < 1073741824) (hdy : |y2 - y1| < 1073741824) :
    drawLine x1 y1 x2 y2 = idealLine x1 y1 x2 y2 := by
  have g1 := h1
  have g2 := h2
  have g3 := h3
  have g4 := h4
  unfold isInt at g1 g2 g3 g4
  have ax := abs_cases (x2 - x1)
  have ay := abs_cases (y2 - y1)
  have wx : iabs (wrap (x2 - x1)) = |x2 - x1| := by
    rw [wrap_eq _ (by omega) (by omega), iabs_eq _ (by omega) (by omega)]
  have wy : iabs (wrap (y2 - y1)) = |y2 - y1| := by
    rw [wrap_eq _ (by omega) (by omega), iabs_eq _ (by omega) (by omega)]
  unfold drawLine
  rw [wx, wy]
  by_cases hs : |y2 - y1| < |x2 - x1|
  · rw [if_pos hs]
    by_cases hy : y1 > y2
    · simp only [hy, if_true]
      have hs2 : |y1 - y2| < |x1 - x2| := by rwa [abs_sub_comm y1, abs_sub_comm x1]
      rw [shallow_body_eq_ideal x2 y2 x1 y1 h3 h4 h1 h2 (by rw [abs_sub_comm]; exact hdx) hs2
        (by omega), idealLine_shallow_swap x1 y1 x2 y2 hs hy]
    · simp only [hy, if_false]
      exact shallow_body_eq_ideal x1 y1 x2 y2 h1 h2 h3 h4 hdx hs (by omega)
  · rw [if_neg hs]
    by_cases hx : x1 > x2
    · simp only [hx, if_true]
      have hs2 : ¬ |y1 - y2| < |x1 - x2| := by rwa [abs_sub_comm y1, abs_sub_comm x1]
      rw [steep_body_eq_ideal x2 y2 x1 y1 h3 h4 h1 h2 (by rw [abs_sub_comm]; exact hdy) hs2
        (by omega), idealLine_steep_swap x1 y1 x2 y2 hs hx]
    · simp only [hx, if_false]
      exact steep_body_eq_ideal x1 y1 x2 y2 h1 h2 h3 h4 hdy hs (by omega)

end Raster

/-! ## Theorems: the claims on `drawLine` -/

namespace Raster

/-- C1 (counterexample): the endpoints `(INT_MIN, 0)` and `(INT_MAX, 5)` have
`|y2 - y1| = 5 < |x2 - x1| = 2^32 - 1`, but the `int` difference `x2 - x1`
overflows to `-1`; `drawLine` takes its steep branch and makes 6 calls, not
`|x2 - x1| + 1`. -/
theorem drawLine_x_driven_overflow :
    isInt (-2147483648) ∧ isInt 0 ∧ isInt 2147483647 ∧ isInt 5 ∧
      |(5 : Int) - 0| < |(2147483647 : Int) - (-2147483648)| ∧
      drawLine (-2147483648) 0 2147483647 5
        = [(-2147483648, 0), (-2147483648, 1), (-2147483648, 2), (-2147483647, 3),
           (-2147483647, 4), (-2147483647, 5)] ∧
      (drawLine (-2147483648) 0 2147483647 5).length
        ≠ ((2147483647 : Int) - (-2147483648)).natAbs + 1 := by
  decide

/-- C1 (amended): for endpoints in the `int` range with
`|y2 - y1| < |x2 - x1| < 2^30`, `drawLine` makes exactly `|x2 - x1| + 1` calls
of `putPixel`, exactly one for each integer `x` between `x1` and `x2`
inclusive; the first and the last call are the two endpoints (taken from the
lower endpoint to the upper one); and `drawLine(150,10,450,10)` makes exactly
the 301 calls `(x, 10)` with `150 ≤ x ≤ 450`. -/
theorem drawLine_x_driven (x1 y1 x2 y2 : Int)
    (h1 : isInt x1) (h2 : isInt y1) (h3 : isInt x2) (h4 : isInt y2)
    (hdx : |x2 - x1| < 1073741824) (h : |y2 - y1| < |x2 - x1|) :
    (drawLine x1 y1 x2 y2).length = (x2 - x1).natAbs + 1 ∧
      ((drawLine x1 y1 x2 y2).map Prod.fst).Nodup ∧
      (∀ x, x ∈ (drawLine x1 y1 x2 y2).map Prod.fst ↔ min x1 x2 ≤ x ∧ x ≤ max x1 x2) ∧
      (drawLine x1 y1 x2 y2).head? = some (if y1 > y2 then (x2, y2) else (x1, y1)) ∧
      (drawLine x1 y1 x2 y2).getLast? = some (if y1 > y2 then (x1, y1) else (x2, y2)) ∧
      drawLine 150 10 450 10
        = (List.range 301).map (fun k : Nat => ((150 : Int) + (k : Int), (10 : Int))) := by
  rw [drawLine_eq_ideal x1 y1 x2 y2 h1 h2 h3 h4 hdx (lt_trans h hdx),
    drawLine_eq_ideal 150 10 450 10 (by decide) (by decide) (by decide) (by decide)
      (by decide) (by decide)]
  exact idealLine_x_driven x1 y1 x2 y2 h

/-- The roof edge `drawLine(300, 410, 450, 310)` of `drawImage`, given from its
other end. -/
theorem drawLine_x_driven_witness :
    |(410 : Int) - 310| < |(300 : Int) - 450| ∧
      (drawLine 450 310 300 410).length = 151 ∧
      (drawLine 450 310 300 410).head? = some (450, 310) ∧
      (drawLine 450 310 300 410).getLast? = some (300, 410) :=
  have h := drawLine_x_driven 450 310 300 410 (by decide) (by decide) (by decide) (by decide)
    (by decide) (by decide)
  ⟨by decide, h.1, h.2.2.2.1, h.2.2.2.2.1⟩

/-- C2 (evaluation at a failing input): the steep segment from `(0, 5)` down
to `(0, 0)` makes the single call `putPixel(0, 5)`, not the six calls
`|y2 - y1| + 1` of a y-driven segment, and its last call is not the endpoint
`(0, 0)`. -/
theorem drawLine_steep_descending_single :
    ¬ |(0 : Int) - 5| < |(0 : Int) - 0| ∧
      drawLine 0 5 0 0 = [(0, 5)] ∧
      (drawLine 0 5 0 0).length ≠ ((0 : Int) - 5).natAbs + 1 ∧
      (drawLine 0 5 0 0).getLast? ≠ some (0, 0) := by
  decide

/-- C3 (evaluation at a failing input): `drawLine(0,0,0,5)` calls
`putPixel(0, 0)` and `putPixel(0, 5)`, while `drawLine(0,5,0,0)` calls only
`putPixel(0, 5)`; on a 1 x 6 buffer the two leave different buffers. -/
theorem drawLine_reverse_differs :
    (0, 0) ∈ drawLine 0 0 0 5 ∧ (0, 5) ∈ drawLine 0 0 0 5 ∧
      (0, 0) ∉ drawLine 0 5 0 0 ∧
      drawLineOn 1 6 [0, 0, 0, 0, 0, 0] 0 0 0 5 ≠ drawLineOn 1 6 [0, 0, 0, 0, 0, 0] 0 5 0 0 := by
  have h : drawLine 0 5 0 0 = [(0, 5)] := by decide
  have h2 : drawLine 0 0 0 5 = [(0, 0), (0, 1), (0, 2), (0, 3), (0, 4), (0, 5)] := by decide
  refine ⟨by rw [h2]; decide, by rw [h2]; decide, by rw [h]; decide, ?_⟩
  unfold drawLineOn
  rw [h, h2]
  simp [drawPixels, putPixel]

/-- On in-range endpoints every call of `drawLine` lies in the bounding box of
the endpoints. -/
theorem drawLine_mem_box (x1 y1 x2 y2 : Int)
    (h1 : isInt x1) (h2 : isInt y1) (h3 : isInt x2) (h4 : isInt y2)
    (hdx : |x2 - x1| < 1073741824) (hdy : |y2 - y1| < 1073741824) (p : Int × Int)
    (hp : p ∈ drawLine x1 y1 x2 y2) :
    (min x1 x2 ≤ p.1 ∧ p.1 ≤ max x1 x2) ∧ (min y1 y2 ≤ p.2 ∧ p.2 ≤ max y1 y2) := by
  rw [drawLine_eq_ideal x1 y1 x2 y2 h1 h2 h3 h4 hdx hdy] at hp
  exact idealLine_mem_box x1 y1 x2 y2 p hp

/-- C4 (amended): for endpoints in the `int` range whose coordinate
differences stay below `2^30`, when the bounding box of the endpoints misses
`[0, W) × [0, H)`, `drawLine` leaves the buffer unchanged; every call of
`drawLine` lies in the bounding box of the endpoints, and `putPixel` drops
every coordinate outside `[0, W) × [0, H)`. -/
theorem drawLine_outside_buffer (W H : Int) (img : Image) (x1 y1 x2 y2 : Int)
    (h1 : isInt x1) (h2 : isInt y1) (h3 : isInt x2) (h4 : isInt y2)
    (hdx : |x2 - x1| < 1073741824) (hdy : |y2 - y1| < 1073741824)
    (hout : max x1 x2 < 0 ∨ W ≤ min x1 x2 ∨ max y1 y2 < 0 ∨ H ≤ min y1 y2) :
    drawLineOn W H img x1 y1 x2 y2 = img ∧
      (∀ p ∈ drawLine x1 y1 x2 y2,
        (min x1 x2 ≤ p.1 ∧ p.1 ≤ max x1 x2) ∧ (min y1 y2 ≤ p.2 ∧ p.2 ≤ max y1 y2)) ∧
      (∀ (b : Image) (x y : Int), ¬ (0 ≤ x ∧ x < W ∧ 0 ≤ y ∧ y < H) →
        putPixel W H b x y = b) := by
  refine ⟨?_, fun p hp => drawLine_mem_box x1 y1 x2 y2 h1 h2 h3 h4 hdx hdy p hp,
    putPixel_outside W H⟩
  unfold drawLineOn
  apply drawPixels_outside
  intro p hp
  have := drawLine_mem_box x1 y1 x2 y2 h1 h2 h3 h4 hdx hdy p hp
  omega

/-- A segment to the right of a 4 x 3 buffer. -/
theorem drawLine_outside_buffer_witness :
    (max (4 : Int) 9 < 0 ∨ (4 : Int) ≤ min 4 9 ∨ max (0 : Int) 2 < 0 ∨ (3 : Int) ≤ min 0 2) ∧
      drawLineOn 4 3 (List.replicate 12 0) 4 0 9 2 = List.replicate 12 0 :=
  ⟨by decide, (drawLine_outside_buffer 4 3 (List.replicate 12 0) 4 0 9 2 (by decide) (by decide)
    (by decide) (by decide) (by decide) (by decide) (by decide)).1⟩

/-! ### A run whose `x2 - x1` overflows -/

/-- The calls of a loop towards a nearer target are among those towards a
farther one. -/
theorem lineLoopXInc_mono (xt x2 i0 i1 : Int) (hx : xt ≤ x2) (fuel : Nat) :
    ∀ (x1 y1 D : Int), ∀ p ∈ lineLoopXInc fuel x1 y1 xt D i0 i1,
      p ∈ lineLoopXInc fuel x1 y1 x2 D i0 i1 := by
  induction fuel with
  | zero => intro x1 y1 D p hp; simp [lineLoopXInc] at hp
  | succ n ih =>
    intro x1 y1 D p hp
    by_cases h : x1 < xt
    · have h' : x1 < x2 := lt_of_lt_of_le h hx
      by_cases hD : D ≤ 0
      · simp only [lineLoopXInc, if_pos h, if_pos h', if_pos hD, List.mem_cons] at hp ⊢
        rcases hp with hp | hp
        · exact Or.inl hp
        · exact Or.inr (ih _ _ _ p hp)
      · simp only [lineLoopXInc, if_pos h, if_pos h', if_neg hD, List.mem_cons] at hp ⊢
        rcases hp with hp | hp
        · exact Or.inl hp
        · exact Or.inr (ih _ _ _ p hp)
    · simp [lineLoopXInc, if_neg h] at hp

/-- A call inside the buffer lights its cell. -/
theorem drawPixels_lit (W H : Int) (p : Int × Int) (hp : 0 ≤ p.1 ∧ p.1 < W ∧ 0 ≤ p.2 ∧ p.2 < H)
    (ps : List (Int × Int)) :
    ∀ img : Image, (p.2 * W + p.1).toNat < img.length →
      (p ∈ ps ∨ img[(p.2 * W + p.1).toNat]? = some 1) →
      (drawPixels W H img ps)[(p.2 * W + p.1).toNat]? = some 1 := by
  induction ps with
  | nil =>
    intro img _ h
    rcases h with h | h
    · cases h
    · exact h
  | cons q ps ih =>
    intro img hlen h
    unfold drawPixels at ih ⊢
    rw [List.foldl_cons]
    have hlen2 : (p.2 * W + p.1).toNat < (putPixel W H img q.1 q.2).length := by
      unfold putPixel
      split_ifs
      · exact hlen
      · rw [List.length_set]; exact hlen
    apply ih _ hlen2
    rcases h with h | h
    · rcases List.mem_cons.1 h with rfl | h
      · right
        unfold putPixel
        rw [if_neg (by omega)]
        rw [List.getElem?_set_self hlen]
      · exact Or.inl h
    · right
      unfold putPixel
      split_ifs
      · exact h
      · rw [List.getElem?_set]
        split_ifs with e1 e2
        · rfl
        · exact absurd (e1 ▸ hlen) e2
        · exact h

/-- C4 (counterexample): the endpoints `(INT_MIN, -3)` and `(2^30, -1)` lie
below a 600 x 600 buffer, but `x2 - x1` overflows, `dx` becomes `2^30`, `y`
climbs past `y2`, and `drawLine` calls `putPixel(0, 1)`: the buffer changes. -/
theorem drawLine_outside_buffer_overflow :
    isInt (-2147483648) ∧ isInt (-3) ∧ isInt 1073741824 ∧ isInt (-1) ∧
      max (-3 : Int) (-1) < 0 ∧
      (0, 1) ∈ drawLine (-2147483648) (-3) 1073741824 (-1) ∧
      drawLineOn 600 600 (List.replicate 360000 0) (-2147483648) (-3) 1073741824 (-1)
        ≠ List.replicate 360000 0 := by
  have hhead : drawLine (-2147483648) (-3) 1073741824 (-1)
      = (-2147483648, -3) ::
          lineLoopXInc loopFuel (-2147483648) (-3) 1073741824 (-1073741820) 4 (-2147483644) := by
    have e1 : iabs (wrap ((-1 : Int) - (-3))) = 2 := by decide
    have e2 : iabs (wrap ((1073741824 : Int) - (-2147483648))) = 1073741824 := by decide
    have e3 : wrap (wrap (2 * 2) - 1073741824) = -1073741820 := by decide
    have e4 : wrap (2 * 2) = 4 := by decide
    have e5 : wrap (2 * wrap (2 - 1073741824)) = -2147483644 := by decide
    unfold drawLine
    rw [e1, e2, if_pos (by decide)]
    simp only [show ¬ ((-3 : Int) > -1) by decide, if_false]
    rw [e1, e2, e3, e4, e5, if_pos (by decide)]
  have hideal := lineLoopXInc_eq_ideal 1073741824 2 0 1 (by decide) (by decide) (by decide)
    (by decide) (by decide) (by decide) (by decide) (-2147483648) (-3) (-1073741820) 4
    (-2147483644) (by decide) (by decide) (by decide) (by decide) (by decide) (by decide)
    (by decide) (by decide) loopFuel (by unfold loopFuel; omega)
  have hinv := idealLoopXInc_inv 1073741824 2 0 1 (by decide) (by decide) (by decide)
    (-2147483648) (-3) (-1073741820) 4 (-2147483644) (by decide) (by decide) (by decide)
    (by decide) (by decide) (by decide)
  have hmem : (0, 1) ∈ drawLine (-2147483648) (-3) 1073741824 (-1) := by
    rw [hhead]
    refine List.mem_cons_of_mem _ ?_
    apply lineLoopXInc_mono 0 1073741824 4 (-2147483644) (by decide) loopFuel
    rw [hideal]
    have := List.mem_of_mem_getLast? hinv.2
    rcases List.mem_cons.1 this with h | h
    · exact absurd h (by decide)
    · exact h
  refine ⟨by decide, by decide, by decide, by decide, by decide, hmem, ?_⟩
  intro hEq
  have hlit := drawPixels_lit 600 600 (0, 1) (by decide)
    (drawLine (-2147483648) (-3) 1073741824 (-1)) (List.replicate 360000 0)
    (by rw [List.length_replicate]; decide) (Or.inl hmem)
  unfold drawLineOn at hEq
  rw [hEq, List.getElem?_replicate, if_pos (by decide)] at hlit
  have h01 := Option.some.inj hlit
  norm_num at h01

end Raster

/-! ## Theorems: circle rasterizer -/

namespace Raster

end Raster

/-! ## Theorems: the 32-bit circle on in-range inputs -/

namespace Raster

end Raster

/-! ## Theorems: sphere intersection -/

namespace RayTracer

section

variable {K : Type} [LinearOrderedField K]

/-- A reported hit unfolds into the two guards and the two parameters. -/
theorem intersect_eq_some (sqrt : K → K) (s : Sphere K) (O D : Vec3 K) (t0 t1 : K)
    (hit : intersect sqrt s O D = some (t0, t1)) :
    0 ≤ Vec3.dot (Vec3.sub s.center O) D ∧
      Vec3.dot (Vec3.sub s.center O) (Vec3.sub s.center O)
          - Vec3.dot (Vec3.sub s.center O) D * Vec3.dot (Vec3.sub s.center O) D
        ≤ s.radius * s.radius ∧
      t0 = Vec3.dot (Vec3.sub s.center O) D
          - sqrt (s.radius * s.radius - (Vec3.dot (Vec3.sub s.center O) (Vec3.sub s.center O)
            - Vec3.dot (Vec3.sub s.center O) D * Vec3.dot (Vec3.sub s.center O) D)) ∧
      t1 = Vec3.dot (Vec3.sub s.center O) D
          + sqrt (s.radius * s.radius - (Vec3.dot (Vec3.sub s.center O) (Vec3.sub s.center O)
            - Vec3.dot (Vec3.sub s.center O) D * Vec3.dot (Vec3.sub s.center O) D)) := by
  unfold intersect at hit
  simp only at hit
  split_ifs at hit with h1 h2
  simp only [Option.some.injEq, Prod.mk.injEq] at hit
  exact ⟨not_lt.1 h1, not_lt.1 h2, hit.1.symm, hit.2.symm⟩

/-- Whether `intersect` reports a hit does not depend on the square root. -/
theorem intersect_isSome (sqrt : K → K) (s : Sphere K) (O D : Vec3 K) :
    (intersect sqrt s O D).isSome = true ↔
      0 ≤ Vec3.dot (Vec3.sub s.center O) D ∧
      Vec3.dot (Vec3.sub s.center O) (Vec3.sub s.center O)
          - Vec3.dot (Vec3.sub s.center O) D * Vec3.dot (Vec3.sub s.center O) D
        ≤ s.radius * s.radius := by
  unfold intersect
  simp only
  split_ifs with h1 h2
  · simp only [Option.isSome_none, Bool.false_eq_true, false_iff, not_and]
    intro h; exact absurd h (not_le.2 h1)
  · simp only [Option.isSome_none, Bool.false_eq_true, false_iff, not_and]
    intro _; exact not_le.2 h2
  · simp only [Option.isSome_some, true_iff]
    exact ⟨not_lt.1 h1, not_lt.1 h2⟩

/-- Points at parameters `tca ± thc` on a unit-direction line lie on the
sphere. -/
theorem on_sphere_of_param (r thc : K) (C O D : Vec3 K) (hD : Vec3.dot D D = 1)
    (hthc : thc * thc = r * r - (Vec3.dot (Vec3.sub C O) (Vec3.sub C O)
      - Vec3.dot (Vec3.sub C O) D * Vec3.dot (Vec3.sub C O) D)) (t : K)
    (ht : t = Vec3.dot (Vec3.sub C O) D - thc ∨ t = Vec3.dot (Vec3.sub C O) D + thc) :
    Vec3.dot (Vec3.sub (Vec3.add O (Vec3.smul t D)) C)
      (Vec3.sub (Vec3.add O (Vec3.smul t D)) C) = r * r := by
  obtain ⟨cx, cy, cz⟩ := C
  obtain ⟨ox, oy, oz⟩ := O
  obtain ⟨dx, dy, dz⟩ := D
  simp only [Vec3.dot, Vec3.sub, Vec3.add, Vec3.smul] at *
  rcases ht with rfl | rfl
  · linear_combination hthc + ((((cx - ox) * dx + (cy - oy) * dy + (cz - oz) * dz) - thc) ^ 2) * hD
  · linear_combination hthc + ((((cx - ox) * dx + (cy - oy) * dy + (cz - oz) * dz) + thc) ^ 2) * hD

/-- With an exact square root and a unit direction, the two parameters of a
hit are ordered and both give points of the sphere surface. -/
theorem hit_on_surface (sqrt : K → K)
    (hsqrt : ∀ x : K, 0 ≤ x → 0 ≤ sqrt x ∧ sqrt x * sqrt x = x)
    (s : Sphere K) (O D : Vec3 K) (hD : Vec3.dot D D = 1) (t0 t1 : K)
    (hit : intersect sqrt s O D = some (t0, t1)) :
    t0 ≤ t1 ∧
      Vec3.dot (Vec3.sub (Vec3.add O (Vec3.smul t0 D)) s.center)
        (Vec3.sub (Vec3.add O (Vec3.smul t0 D)) s.center) = s.radius * s.radius ∧
      Vec3.dot (Vec3.sub (Vec3.add O (Vec3.smul t1 D)) s.center)
        (Vec3.sub (Vec3.add O (Vec3.smul t1 D)) s.center) = s.radius * s.radius := by
  obtain ⟨-, h2, e0, e1⟩ := intersect_eq_some sqrt s O D t0 t1 hit
  obtain ⟨hn, hsq⟩ := hsqrt _ (sub_nonneg.2 h2)
  refine ⟨by rw [e0, e1]; linarith, ?_, ?_⟩
  · exact on_sphere_of_param s.radius _ s.center O D hD hsq t0 (Or.inl e0)
  · exact on_sphere_of_param s.radius _ s.center O D hD hsq t1 (Or.inr e1)

/-- C6: with a square root exact on non-negative arguments (exact real
arithmetic when `K = ℝ`) and a unit direction `D`, a hit reported by
`Sphere::intersect` has `t0 ≤ t1` and both `O + t0 * D` and `O + t1 * D` on the
sphere surface. -/
theorem intersect_hit_on_surface (sqrt : K → K)
    (hsqrt : ∀ x : K, 0 ≤ x → 0 ≤ sqrt x ∧ sqrt x * sqrt x = x)
    (s : Sphere K) (O D : Vec3 K) (hD : Vec3.dot D D = 1) (t0 t1 : K)
    (hit : intersect sqrt s O D = some (t0, t1)) :
    t0 ≤ t1 ∧
      Vec3.dot (Vec3.sub (Vec3.add O (Vec3.smul t0 D)) s.center)
        (Vec3.sub (Vec3.add O (Vec3.smul t0 D)) s.center) = s.radius * s.radius ∧
      Vec3.dot (Vec3.sub (Vec3.add O (Vec3.smul t1 D)) s.center)
        (Vec3.sub (Vec3.add O (Vec3.smul t1 D)) s.center) = s.radius * s.radius :=
  hit_on_surface sqrt hsqrt s O D hD t0 t1 hit

end

end RayTracer

/-! ## Theorems: scene trace -/

namespace RayTracer

section

variable {K : Type} [LinearOrderedField K]

theorem beforeFront_of_lt (a t : K) (front : Option K) (hat : a < t)
    (ht : beforeFront t front = true) : beforeFront a front = true := by
  cases front with
  | none => rfl
  | some f =>
    simp only [beforeFront, decide_eq_true_eq] at ht ⊢
    exact lt_trans hat ht

theorem lt_of_beforeFront (a t : K) (front : Option K)
    (ht : beforeFront t front = false) (ha : beforeFront a front = true) : a < t := by
  cases front with
  | none => simp [beforeFront] at ht
  | some f =>
    simp only [beforeFront, decide_eq_true_eq, decide_eq_false_iff_not, not_lt] at ht ha
    exact lt_of_lt_of_le ha ht

/-- Invariant of the sphere loop of `trace`: either no sphere still to visit
is hit in front of `front` and the state is unchanged, or the state is the
shading of the first sphere attaining the least `t0` among them. -/
theorem traceLoop_spec (sqrt : K → K) (lights : List (Vec3 K)) (spheres : List (Sphere K))
    (O D : Vec3 K) (rest : List (Sphere K)) :
    ∀ (c : Vec3 K) (front : Option K),
      ((∀ s ∈ rest, ∀ a b, intersect sqrt s O D = some (a, b) → beforeFront a front = false) ∧
        traceLoop sqrt lights spheres O D rest (c, front) = (c, front)) ∨
      (∃ pre s post t0 t1, rest = pre ++ s :: post ∧
        intersect sqrt s O D = some (t0, t1) ∧ beforeFront t0 front = true ∧
        (∀ s' ∈ pre, ∀ a b, intersect sqrt s' O D = some (a, b) → t0 < a) ∧
        (∀ s' ∈ post, ∀ a b, intersect sqrt s' O D = some (a, b) → t0 ≤ a) ∧
        traceLoop sqrt lights spheres O D rest (c, front)
          = (shade sqrt lights spheres s D (calOrigin O D t0 t1), some t0)) := by
  induction rest with
  | nil =>
    intro c front
    exact Or.inl ⟨by simp, rfl⟩
  | cons s rest ih =>
    intro c front
    cases hs : intersect sqrt s O D with
    | none =>
      have hstep : traceLoop sqrt lights spheres O D (s :: rest) (c, front)
          = traceLoop sqrt lights spheres O D rest (c, front) := by
        simp only [traceLoop, hs]
      rw [hstep]
      rcases ih c front with ⟨h1, h2⟩ | ⟨pre, s2, post, t0, t1, e, hh, hb, hpre, hpost, hr⟩
      · refine Or.inl ⟨?_, h2⟩
        intro s' hs' a b hab
        rcases List.mem_cons.1 hs' with rfl | hs'
        · rw [hs] at hab; cases hab
        · exact h1 s' hs' a b hab
      · refine Or.inr ⟨s :: pre, s2, post, t0, t1, by rw [e]; rfl, hh, hb, ?_, hpost, hr⟩
        intro s' hs' a b hab
        rcases List.mem_cons.1 hs' with rfl | hs'
        · rw [hs] at hab; cases hab
        · exact hpre s' hs' a b hab
    | some tt =>
      obtain ⟨u0, u1⟩ := tt
      cases hbf : beforeFront u0 front with
      | true =>
        have hstep : traceLoop sqrt lights spheres O D (s :: rest) (c, front)
            = traceLoop sqrt lights spheres O D rest
                (shade sqrt lights spheres s D (calOrigin O D u0 u1), some u0) := by
          simp only [traceLoop, hs, hbf, if_true]
        rw [hstep]
        rcases ih (shade sqrt lights spheres s D (calOrigin O D u0 u1)) (some u0) with
          ⟨h1, h2⟩ | ⟨pre, s2, post, t0, t1, e, hh, hb, hpre, hpost, hr⟩
        · refine Or.inr ⟨[], s, rest, u0, u1, rfl, hs, hbf, by simp, ?_, h2⟩
          intro s' hs' a b hab
          have := h1 s' hs' a b hab
          simp only [beforeFront, decide_eq_false_iff_not, not_lt] at this
          exact this
        · have hlt : t0 < u0 := by
            simpa only [beforeFront, decide_eq_true_eq] using hb
          refine Or.inr ⟨s :: pre, s2, post, t0, t1, by rw [e]; rfl, hh,
            beforeFront_of_lt t0 u0 front hlt hbf, ?_, hpost, hr⟩
          intro s' hs' a b hab
          rcases List.mem_cons.1 hs' with rfl | hs'
          · rw [hs] at hab
            simp only [Option.some.injEq, Prod.mk.injEq] at hab
            rw [← hab.1]; exact hlt
          · exact hpre s' hs' a b hab
      | false =>
        have hstep : traceLoop sqrt lights spheres O D (s :: rest) (c, front)
            = traceLoop sqrt lights spheres O D rest (c, front) := by
          simp only [traceLoop, hs, hbf, Bool.false_eq_true, if_false]
        rw [hstep]
        rcases ih c front with ⟨h1, h2⟩ | ⟨pre, s2, post, t0, t1, e, hh, hb, hpre, hpost, hr⟩
        · refine Or.inl ⟨?_, h2⟩
          intro s' hs' a b hab
          rcases List.mem_cons.1 hs' with rfl | hs'
          · rw [hs] at hab
            simp only [Option.some.injEq, Prod.mk.injEq] at hab
            rw [← hab.1]; exact hbf
          · exact h1 s' hs' a b hab
        · refine Or.inr ⟨s :: pre, s2, post, t0, t1, by rw [e]; rfl, hh, hb, ?_, hpost, hr⟩
          intro s' hs' a b hab
          rcases List.mem_cons.1 hs' with rfl | hs'
          · rw [hs] at hab
            simp only [Option.some.injEq, Prod.mk.injEq] at hab
            rw [← hab.1]; exact lt_of_beforeFront t0 u0 front hbf hb
          · exact hpre s' hs' a b hab

/-- The function `trace` returns the background when no sphere is hit, and
otherwise the shading of the first sphere attaining the least `t0`. -/
theorem trace_cases (sqrt : K → K) (lights : List (Vec3 K)) (O D : Vec3 K)
    (spheres : List (Sphere K)) :
    ((∀ s ∈ spheres, intersect sqrt s O D = none) ∧ trace sqrt lights O D spheres = bgcolor) ∨
      (∃ pre s post t0 t1, spheres = pre ++ s :: post ∧
        intersect sqrt s O D = some (t0, t1) ∧
        (∀ s' ∈ pre, ∀ a b, intersect sqrt s' O D = some (a, b) → t0 < a) ∧
        (∀ s' ∈ post, ∀ a b, intersect sqrt s' O D = some (a, b) → t0 ≤ a) ∧
        trace sqrt lights O D spheres
          = shade sqrt lights spheres s D (calOrigin O D t0 t1)) := by
  unfold trace
  rcases traceLoop_spec sqrt lights spheres O D spheres bgcolor none with
    ⟨h1, h2⟩ | ⟨pre, s2, post, t0, t1, e, hh, -, hpre, hpost, hr⟩
  · refine Or.inl ⟨?_, by rw [h2]⟩
    intro s hs
    cases h : intersect sqrt s O D with
    | none => rfl
    | some tt =>
      have := h1 s hs tt.1 tt.2 h
      simp [beforeFront] at this
  · exact Or.inr ⟨pre, s2, post, t0, t1, e, hh, hpre, hpost, by rw [hr]⟩

theorem traceLoop_skip (sqrt : K → K) (lights : List (Vec3 K)) (spheres : List (Sphere K))
    (O D : Vec3 K) (c : Vec3 K) (front : Option K) (post : List (Sphere K)) :
    (∀ s ∈ post, ∀ a b, intersect sqrt s O D = some (a, b) → beforeFront a front = false) →
      traceLoop sqrt lights spheres O D post (c, front) = (c, front) := by
  induction post with
  | nil => intro _; rfl
  | cons s post ih =>
    intro h
    have ih' := ih (fun s' hs' => h s' (List.mem_cons_of_mem _ hs'))
    cases hs : intersect sqrt s O D with
    | none => simp only [traceLoop, hs]; exact ih'
    | some tt =>
      have hb := h s (List.mem_cons_self _ _) tt.1 tt.2 hs
      simp only [traceLoop, hs, hb, Bool.false_eq_true, if_false]
      exact ih'

theorem traceLoop_prefix (sqrt : K → K) (lights : List (Vec3 K)) (spheres : List (Sphere K))
    (O D : Vec3 K) (t0 : K) (rest pre : List (Sphere K)) :
    (∀ s ∈ pre, ∀ a b, intersect sqrt s O D = some (a, b) → t0 < a) →
    ∀ (c : Vec3 K) (front : Option K), beforeFront t0 front = true →
      ∃ c' front', beforeFront t0 front' = true ∧
        traceLoop sqrt lights spheres O D (pre ++ rest) (c, front)
          = traceLoop sqrt lights spheres O D rest (c', front') := by
  induction pre with
  | nil => intro _ c front hb; exact ⟨c, front, hb, rfl⟩
  | cons s pre ih =>
    intro h c front hb
    have ih' := ih (fun s' hs' => h s' (List.mem_cons_of_mem _ hs'))
    cases hs : intersect sqrt s O D with
    | none =>
      obtain ⟨c', f', hb', e⟩ := ih' c front hb
      exact ⟨c', f', hb', by simp only [List.cons_append, traceLoop, hs]; exact e⟩
    | some tt =>
      have hlt := h s (List.mem_cons_self _ _) tt.1 tt.2 hs
      cases hbf : beforeFront tt.1 front with
      | true =>
        obtain ⟨c', f', hb', e⟩ := ih'
          (shade sqrt lights spheres s D (calOrigin O D tt.1 tt.2)) (some tt.1)
          (by simp only [beforeFront, decide_eq_true_eq]; exact hlt)
        exact ⟨c', f', hb', by simp only [List.cons_append, traceLoop, hs, hbf, if_true]; exact e⟩
      | false =>
        obtain ⟨c', f', hb', e⟩ := ih' c front hb
        exact ⟨c', f', hb', by
          simp only [List.cons_append, traceLoop, hs, hbf, Bool.false_eq_true, if_false]
          exact e⟩

/-- When `s` is the first sphere of the scene attaining the least `t0`, `trace`
returns the shading of `s` at its hit point. -/
theorem trace_eq_shade (sqrt : K → K) (lights : List (Vec3 K)) (O D : Vec3 K)
    (pre : List (Sphere K)) (s : Sphere K) (post : List (Sphere K)) (t0 t1 : K)
    (hit : intersect sqrt s O D = some (t0, t1))
    (hpre : ∀ s' ∈ pre, ∀ a b, intersect sqrt s' O D = some (a, b) → t0 < a)
    (hpost : ∀ s' ∈ post, ∀ a b, intersect sqrt s' O D = some (a, b) → t0 ≤ a) :
    trace sqrt lights O D (pre ++ s :: post)
      = shade sqrt lights (pre ++ s :: post) s D (calOrigin O D t0 t1) := by
  unfold trace
  obtain ⟨c', f', hb', e⟩ := traceLoop_prefix sqrt lights (pre ++ s :: post) O D t0 (s :: post)
    pre hpre bgcolor none rfl
  rw [e]
  simp only [traceLoop, hit, hb', if_true]
  rw [traceLoop_skip]
  intro s' hs' a b hab
  simp only [beforeFront, decide_eq_false_iff_not, not_lt]
  exact hpost s' hs' a b hab

/-! ### Vector algebra -/

theorem Vec3.add_assoc_v (a b c : Vec3 K) :
    Vec3.add (Vec3.add a b) c = Vec3.add a (Vec3.add b c) := by
  ext <;> simp only [Vec3.add] <;> ring

theorem Vec3.zero_add_v (a : Vec3 K) : Vec3.add Vec3.zero a = a := by
  ext <;> simp only [Vec3.add, Vec3.zero] <;> ring

theorem Vec3.add_zero_v (a : Vec3 K) : Vec3.add a Vec3.zero = a := by
  ext <;> simp only [Vec3.add, Vec3.zero] <;> ring

/-- The light loop adds up the terms of the lights that are not shadowed. -/
theorem shade_eq_sum (sqrt : K → K) (lights : List (Vec3 K)) (spheres : List (Sphere K))
    (s : Sphere K) (D P : Vec3 K) :
    shade sqrt lights spheres s D P
      = Vec3.sum ((lights.filter
          (fun light => !shadowed sqrt spheres P (lightDirection sqrt light P))).map
          (fun light => lightTerm sqrt lights s D P light)) := by
  unfold shade
  have key : ∀ (ls : List (Vec3 K)) (c : Vec3 K) (term : Vec3 K → Vec3 K),
      ls.foldl (fun pixelColor light =>
          if shadowed sqrt spheres P (lightDirection sqrt light P) then pixelColor
          else Vec3.add pixelColor (term light)) c
        = Vec3.add c (Vec3.sum ((ls.filter
            (fun light => !shadowed sqrt spheres P (lightDirection sqrt light P))).map term)) := by
    intro ls
    induction ls with
    | nil => intro c term; simp [Vec3.sum, Vec3.add_zero_v]
    | cons l ls ih =>
      intro c term
      rw [List.foldl_cons, ih]
      cases hsh : shadowed sqrt spheres P (lightDirection sqrt l P) with
      | true => simp [List.filter, hsh]
      | false => simp [List.filter, hsh, Vec3.sum, Vec3.add_assoc_v]
  rw [key lights Vec3.zero (fun light => lightTerm sqrt lights s D P light), Vec3.zero_add_v]

theorem shadowed_eq_true (sqrt : K → K) (spheres : List (Sphere K)) (P L : Vec3 K) :
    shadowed sqrt spheres P L = true ↔ ∃ s ∈ spheres, (intersect sqrt s P L).isSome = true := by
  unfold shadowed
  rw [List.any_eq_true]

theorem shadowed_perm (sqrt : K → K) (l1 l2 : List (Sphere K)) (h : l1.Perm l2)
    (P L : Vec3 K) : shadowed sqrt l1 P L = shadowed sqrt l2 P L := by
  rw [Bool.eq_iff_iff, shadowed_eq_true, shadowed_eq_true]
  constructor
  · rintro ⟨s, hs, hh⟩; exact ⟨s, h.mem_iff.1 hs, hh⟩
  · rintro ⟨s, hs, hh⟩; exact ⟨s, h.mem_iff.2 hs, hh⟩

theorem shade_perm (sqrt : K → K) (lights : List (Vec3 K)) (l1 l2 : List (Sphere K))
    (h : l1.Perm l2) (s : Sphere K) (D P : Vec3 K) :
    shade sqrt lights l1 s D P = shade sqrt lights l2 s D P := by
  unfold shade
  simp only [shadowed_perm sqrt l1 l2 h]

/-- An unshadowed point of a sphere of the scene with positive radius faces the
light: the sphere itself would otherwise report a hit. -/
theorem unshadowed_dot_pos (sqrt : K → K) (spheres : List (Sphere K)) (s : Sphere K)
    (hs : s ∈ spheres) (hr : 0 < s.radius) (P L : Vec3 K)
    (hP : Vec3.dot (Vec3.sub P s.center) (Vec3.sub P s.center) = s.radius * s.radius)
    (hns : shadowed sqrt spheres P L = false) :
    0 < Vec3.dot L (Vec3.sdiv (Vec3.sub P s.center) s.radius) := by
  have hnot : ¬ (intersect sqrt s P L).isSome = true := by
    intro h
    have := (shadowed_eq_true sqrt spheres P L).2 ⟨s, hs, h⟩
    rw [hns] at this
    cases this
  rw [intersect_isSome] at hnot
  have e1 : Vec3.dot (Vec3.sub s.center P) (Vec3.sub s.center P) = s.radius * s.radius := by
    rw [← hP]; simp only [Vec3.dot, Vec3.sub]; ring
  have e2 : Vec3.dot L (Vec3.sdiv (Vec3.sub P s.center) s.radius)
      = -Vec3.dot (Vec3.sub s.center P) L / s.radius := by
    simp only [Vec3.dot, Vec3.sub, Vec3.sdiv]; field_simp; ring
  rw [e1] at hnot
  have hneg : Vec3.dot (Vec3.sub s.center P) L < 0 := by
    by_contra hc
    apply hnot
    refine ⟨not_lt.1 hc, ?_⟩
    have := mul_self_nonneg (Vec3.dot (Vec3.sub s.center P) L)
    linarith
  rw [e2]
  exact div_pos (by linarith) hr

end

end RayTracer

/-! ## Theorems: the claims on `trace` -/

namespace RayTracer

section

variable {K : Type} [LinearOrderedField K]

theorem foldl_add_x_le (F : List (Vec3 K)) (f g : Vec3 K → Vec3 K)
    (hle : ∀ l ∈ F, (g l).x ≤ (f l).x) :
    ∀ c1 c2 : Vec3 K, c1.x ≤ c2.x →
      ((F.map g).foldl Vec3.add c1).x ≤ ((F.map f).foldl Vec3.add c2).x := by
  induction F with
  | nil => intro c1 c2 h; exact h
  | cons l F ih =>
    intro c1 c2 h
    simp only [List.map_cons, List.foldl_cons]
    apply ih (fun l' hl' => hle l' (List.mem_cons_of_mem _ hl'))
    have := hle l (List.mem_cons_self _ _)
    simp only [Vec3.add]
    linarith

/-- C9 (amended): for sphere lists that are permutations of each other, `trace`
returns the same colour provided at most one sphere attains the least entry
parameter `t0` among the hit spheres. -/
theorem trace_perm_of_unique_nearest (sqrt : K → K) (lights : List (Vec3 K)) (O D : Vec3 K)
    (l1 l2 : List (Sphere K)) (hperm : l1.Perm l2)
    (huniq : ∀ s ∈ l1, ∀ s' ∈ l1, ∀ t0 t1 u1,
      intersect sqrt s O D = some (t0, t1) → intersect sqrt s' O D = some (t0, u1) →
      (∀ s'' ∈ l1, ∀ a b, intersect sqrt s'' O D = some (a, b) → t0 ≤ a) → s = s') :
    trace sqrt lights O D l1 = trace sqrt lights O D l2 := by
  rcases trace_cases sqrt lights O D l1 with
    ⟨h1, e1⟩ | ⟨pre, s, post, t0, t1, e, hh, hp, hq, hr⟩
  · rcases trace_cases sqrt lights O D l2 with
      ⟨-, e2⟩ | ⟨pre2, s2, post2, u0, u1, e2, hh2, -⟩
    · rw [e1, e2]
    · have hm : s2 ∈ l1 := hperm.mem_iff.2 (by rw [e2]; simp)
      rw [h1 s2 hm] at hh2
      cases hh2
  · rcases trace_cases sqrt lights O D l2 with
      ⟨h2, -⟩ | ⟨pre2, s2, post2, u0, u1, e2, hh2, hp2, hq2, hr2⟩
    · have hm : s ∈ l2 := hperm.mem_iff.1 (by rw [e]; simp)
      rw [h2 s hm] at hh
      cases hh
    · have hmin1 : ∀ s'' ∈ l1, ∀ a b, intersect sqrt s'' O D = some (a, b) → t0 ≤ a := by
        intro s'' hs'' a b hab
        rw [e] at hs''
        rcases List.mem_append.1 hs'' with h | h
        · exact le_of_lt (hp s'' h a b hab)
        · rcases List.mem_cons.1 h with rfl | h
          · rw [hh] at hab
            simp only [Option.some.injEq, Prod.mk.injEq] at hab
            exact le_of_eq hab.1
          · exact hq s'' h a b hab
      have hmin2 : ∀ s'' ∈ l2, ∀ a b, intersect sqrt s'' O D = some (a, b) → u0 ≤ a := by
        intro s'' hs'' a b hab
        rw [e2] at hs''
        rcases List.mem_append.1 hs'' with h | h
        · exact le_of_lt (hp2 s'' h a b hab)
        · rcases List.mem_cons.1 h with rfl | h
          · rw [hh2] at hab
            simp only [Option.some.injEq, Prod.mk.injEq] at hab
            exact le_of_eq hab.1
          · exact hq2 s'' h a b hab
      have hs1 : s ∈ l1 := by rw [e]; simp
      have hs2 : s2 ∈ l2 := by rw [e2]; simp
      have hs21 : s2 ∈ l1 := hperm.mem_iff.2 hs2
      have hs12 : s ∈ l2 := hperm.mem_iff.1 hs1
      have htu : t0 = u0 :=
        le_antisymm (hmin1 s2 hs21 u0 u1 hh2) (hmin2 s hs12 t0 t1 hh)
      subst htu
      have hss : s = s2 := huniq s hs1 s2 hs21 t0 t1 u1 hh hh2 hmin1
      subst hss
      rw [hh] at hh2
      simp only [Option.some.injEq, Prod.mk.injEq, true_and] at hh2
      subst hh2
      rw [hr, hr2]
      exact shade_perm sqrt lights l1 l2 hperm s D _

end

end RayTracer

/-! ## Theorems: evaluation over the reals -/

namespace RayTracer

section

variable {K : Type} [LinearOrderedField K]

theorem Vec3.sum_x_lt (F : List (Vec3 K)) (f g : Vec3 K → Vec3 K)
    (hfg : ∀ l ∈ F, (g l).x < (f l).x) (hne : F ≠ []) :
    (Vec3.sum (F.map g)).x < (Vec3.sum (F.map f)).x := by
  induction F with
  | nil => exact absurd rfl hne
  | cons l F ih =>
    have hl := hfg l (List.mem_cons_self _ _)
    simp only [List.map_cons, Vec3.sum, Vec3.add]
    by_cases hF : F = []
    · subst hF
      simp only [List.map_nil, Vec3.sum, Vec3.zero]
      linarith
    · have := ih (fun l' hl' => hfg l' (List.mem_cons_of_mem _ hl')) hF
      linarith

theorem intersect_none_of_neg (sqrt : K → K) (s : Sphere K) (P L : Vec3 K)
    (h : Vec3.dot (Vec3.sub s.center P) L < 0) : intersect sqrt s P L = none := by
  unfold intersect
  simp only [h, if_true]

end

theorem real_sqrt_exact : ∀ x : ℝ, 0 ≤ x → 0 ≤ Real.sqrt x ∧ Real.sqrt x * Real.sqrt x = x :=
  fun x hx => ⟨Real.sqrt_nonneg x, Real.mul_self_sqrt hx⟩

theorem real_sqrt_16 : Real.sqrt 16 = 4 := by
  rw [show (16 : ℝ) = 4 * 4 by norm_num]
  exact Real.sqrt_mul_self (by norm_num)

/-- The ray down the `z` axis meets the sphere of radius 4 centred at
`(0, 0, -20)` at parameters 16 and 24. -/
theorem hit_second_sphere :
    intersect Real.sqrt ⟨⟨0, 0, -20⟩, 4, ⟨1, 32 / 100, 36 / 100⟩⟩ ⟨0, 0, 0⟩ ⟨0, 0, -1⟩
      = some ((16 : ℝ), (24 : ℝ)) := by
  unfold intersect
  norm_num [Vec3.dot, Vec3.sub, real_sqrt_16]

/-- The ray down the `z` axis misses the ground sphere. -/
theorem miss_ground_sphere :
    intersect Real.sqrt ⟨⟨0, -10004, -20⟩, 10000, ⟨50 / 100, 50 / 100, 50 / 100⟩⟩
      ⟨0, 0, 0⟩ ⟨0, 0, -1⟩ = (none : Option (ℝ × ℝ)) := by
  unfold intersect
  norm_num [Vec3.dot, Vec3.sub]

/-- The ray down the `z` axis and the second sphere of `main`, over the reals. -/
theorem intersect_hit_on_surface_witness :
    Vec3.dot (⟨0, 0, -1⟩ : Vec3 ℝ) ⟨0, 0, -1⟩ = 1 ∧
      intersect Real.sqrt ⟨⟨0, 0, -20⟩, 4, ⟨1, 32 / 100, 36 / 100⟩⟩ ⟨0, 0, 0⟩ ⟨0, 0, -1⟩
        = some ((16 : ℝ), (24 : ℝ)) ∧
      (16 : ℝ) ≤ 24 ∧
      Vec3.dot (Vec3.sub (Vec3.add ⟨0, 0, 0⟩ (Vec3.smul 16 ⟨0, 0, -1⟩)) (⟨0, 0, -20⟩ : Vec3 ℝ))
        (Vec3.sub (Vec3.add ⟨0, 0, 0⟩ (Vec3.smul 16 ⟨0, 0, -1⟩)) ⟨0, 0, -20⟩) = 4 * 4 ∧
      Vec3.dot (Vec3.sub (Vec3.add ⟨0, 0, 0⟩ (Vec3.smul 24 ⟨0, 0, -1⟩)) (⟨0, 0, -20⟩ : Vec3 ℝ))
        (Vec3.sub (Vec3.add ⟨0, 0, 0⟩ (Vec3.smul 24 ⟨0, 0, -1⟩)) ⟨0, 0, -20⟩) = 4 * 4 :=
  ⟨by norm_num [Vec3.dot], hit_second_sphere,
    intersect_hit_on_surface Real.sqrt real_sqrt_exact
      ⟨⟨0, 0, -20⟩, 4, ⟨1, 32 / 100, 36 / 100⟩⟩ ⟨0, 0, 0⟩ ⟨0, 0, -1⟩
      (by norm_num [Vec3.dot]) 16 24 hit_second_sphere⟩

theorem hit_twinRed :
    intersect Real.sqrt twinRed ⟨0, 0, 0⟩ ⟨0, 0, -1⟩ = some ((1 : ℝ), (3 : ℝ)) := by
  unfold intersect twinRed
  norm_num [Vec3.dot, Vec3.sub]

theorem hit_twinBlue :
    intersect Real.sqrt twinBlue ⟨0, 0, 0⟩ ⟨0, 0, -1⟩ = some ((1 : ℝ), (3 : ℝ)) := by
  unfold intersect twinBlue
  norm_num [Vec3.dot, Vec3.sub]

theorem calOrigin_twin : calOrigin (⟨0, 0, 0⟩ : Vec3 ℝ) ⟨0, 0, -1⟩ 1 3 = ⟨0, 0, -1⟩ := by
  unfold calOrigin
  norm_num [Vec3.add, Vec3.smul]

/-- The first light of `lightPositions` is not shadowed at the hit point of
the twin spheres. -/
theorem twin_first_light_unshadowed :
    shadowed Real.sqrt [twinRed, twinBlue] (⟨0, 0, -1⟩ : Vec3 ℝ)
      (lightDirection Real.sqrt ⟨0, 60, 60⟩ ⟨0, 0, -1⟩) = false := by
  have hneg : ∀ s : Sphere ℝ, s.center = ⟨0, 0, -2⟩ →
      intersect Real.sqrt s (⟨0, 0, -1⟩ : Vec3 ℝ)
        (lightDirection Real.sqrt ⟨0, 60, 60⟩ ⟨0, 0, -1⟩) = none := by
    intro s hs
    apply intersect_none_of_neg
    rw [hs]
    unfold lightDirection Vec3.normalize
    norm_num [Vec3.dot, Vec3.sub, Vec3.sdiv]
  simp only [shadowed, List.any_cons, List.any_nil, hneg twinRed rfl, hneg twinBlue rfl,
    Option.isSome_none, Bool.or_self]

/-- C9 (counterexample): two spheres with the same centre and radius and
different colours are hit at the same `t0`; the ray down the `z` axis is
shaded with the colour of whichever stands first in the list. -/
theorem trace_order_matters :
    List.Perm [(twinRed : Sphere ℝ), twinBlue] [twinBlue, twinRed] ∧
      trace Real.sqrt lightPositions ⟨0, 0, 0⟩ ⟨0, 0, -1⟩ [(twinRed : Sphere ℝ), twinBlue]
        ≠ trace Real.sqrt lightPositions ⟨0, 0, 0⟩ ⟨0, 0, -1⟩ [twinBlue, twinRed] := by
  have hperm : List.Perm [(twinRed : Sphere ℝ), twinBlue] [twinBlue, twinRed] :=
    List.Perm.swap _ _ _
  refine ⟨hperm, ?_⟩
  have e1 := trace_eq_shade Real.sqrt lightPositions ⟨0, 0, 0⟩ ⟨0, 0, -1⟩ []
    (twinRed : Sphere ℝ) [twinBlue] 1 3 hit_twinRed (by intro s' hs'; cases hs')
    (by
      intro s' hs' a b hab
      rw [List.mem_singleton] at hs'
      subst hs'
      rw [hit_twinBlue] at hab
      simp only [Option.some.injEq, Prod.mk.injEq] at hab
      exact le_of_eq hab.1)
  have e2 := trace_eq_shade Real.sqrt lightPositions ⟨0, 0, 0⟩ ⟨0, 0, -1⟩ []
    (twinBlue : Sphere ℝ) [twinRed] 1 3 hit_twinBlue (by intro s' hs'; cases hs')
    (by
      intro s' hs' a b hab
      rw [List.mem_singleton] at hs'
      subst hs'
      rw [hit_twinRed] at hab
      simp only [Option.some.injEq, Prod.mk.injEq] at hab
      exact le_of_eq hab.1)
  simp only [List.nil_append] at e1 e2
  rw [e1, e2, calOrigin_twin, shade_perm Real.sqrt lightPositions _ _ hperm.symm,
    shade_eq_sum, shade_eq_sum]
  intro h
  have hx := congrArg Vec3.x h
  have hlt := Vec3.sum_x_lt
    (lightPositions.filter (fun light =>
      !shadowed Real.sqrt [(twinRed : Sphere ℝ), twinBlue] ⟨0, 0, -1⟩
        (lightDirection Real.sqrt light ⟨0, 0, -1⟩)))
    (fun light => lightTerm Real.sqrt lightPositions twinRed ⟨0, 0, -1⟩ ⟨0, 0, -1⟩ light)
    (fun light => lightTerm Real.sqrt lightPositions twinBlue ⟨0, 0, -1⟩ ⟨0, 0, -1⟩ light)
    (by
      intro l hl
      have hns : shadowed Real.sqrt [(twinRed : Sphere ℝ), twinBlue] ⟨0, 0, -1⟩
          (lightDirection Real.sqrt l ⟨0, 0, -1⟩) = false := by
        simpa using (List.mem_filter.1 hl).2
      have hpos := unshadowed_dot_pos Real.sqrt [(twinRed : Sphere ℝ), twinBlue] twinRed
        (List.mem_cons_self _ _) (by norm_num [twinRed]) ⟨0, 0, -1⟩
        (lightDirection Real.sqrt l ⟨0, 0, -1⟩) (by norm_num [twinRed, Vec3.dot, Vec3.sub]) hns
      have hpos2 : 0 < Vec3.dot (lightDirection Real.sqrt l ⟨0, 0, -1⟩)
          (Vec3.sdiv (Vec3.sub ⟨0, 0, -1⟩ (twinBlue : Sphere ℝ).center) twinBlue.radius) := hpos
      simp only [lightTerm, phong, diffuse, if_pos hpos, if_pos hpos2, Vec3.add, Vec3.smul]
      have hc : ((twinBlue : Sphere ℝ).surfaceColor).x = 0 := rfl
      have hd : ((twinRed : Sphere ℝ).surfaceColor).x = 1 := rfl
      have hN : Vec3.sdiv (Vec3.sub ⟨0, 0, -1⟩ (twinBlue : Sphere ℝ).center) twinBlue.radius
          = Vec3.sdiv (Vec3.sub ⟨0, 0, -1⟩ (twinRed : Sphere ℝ).center) twinRed.radius := rfl
      rw [hc, hd, hN]
      nlinarith)
    (by
      apply List.ne_nil_of_mem (a := (⟨0, 60, 60⟩ : Vec3 ℝ))
      rw [List.mem_filter]
      refine ⟨by simp [lightPositions], ?_⟩
      rw [twin_first_light_unshadowed]
      rfl)
  linarith

/-- The first two spheres of `main` in both orders. -/
theorem trace_perm_of_unique_nearest_witness :
    List.Perm
        [(⟨⟨0, -10004, -20⟩, 10000, ⟨50 / 100, 50 / 100, 50 / 100⟩⟩ : Sphere ℝ),
         ⟨⟨0, 0, -20⟩, 4, ⟨1, 32 / 100, 36 / 100⟩⟩]
        [⟨⟨0, 0, -20⟩, 4, ⟨1, 32 / 100, 36 / 100⟩⟩,
         ⟨⟨0, -10004, -20⟩, 10000, ⟨50 / 100, 50 / 100, 50 / 100⟩⟩] ∧
      trace Real.sqrt lightPositions ⟨0, 0, 0⟩ ⟨0, 0, -1⟩
          [⟨⟨0, -10004, -20⟩, 10000, ⟨50 / 100, 50 / 100, 50 / 100⟩⟩,
           ⟨⟨0, 0, -20⟩, 4, ⟨1, 32 / 100, 36 / 100⟩⟩]
        = trace Real.sqrt lightPositions ⟨0, 0, 0⟩ ⟨0, 0, -1⟩
          [⟨⟨0, 0, -20⟩, 4, ⟨1, 32 / 100, 36 / 100⟩⟩,
           ⟨⟨0, -10004, -20⟩, 10000, ⟨50 / 100, 50 / 100, 50 / 100⟩⟩] :=
  ⟨List.Perm.swap _ _ _,
    trace_perm_of_unique_nearest Real.sqrt lightPositions ⟨0, 0, 0⟩ ⟨0, 0, -1⟩ _ _
      (List.Perm.swap _ _ _)
      (by
        intro s hs s' hs' t0 t1 u1 h h' _
        simp only [List.mem_cons, List.mem_singleton, List.not_mem_nil, or_false] at hs hs'
        rcases hs with rfl | rfl
        · rw [miss_ground_sphere] at h
          cases h
        · rcases hs' with rfl | rfl
          · rw [miss_ground_sphere] at h'
            cases h'
          · rfl)⟩

end RayTracer

/-! ## Theorems: a hit with a NaN parameter -/

namespace RayTracer
namespace IEEE

end IEEE
end RayTracer
